import Mathlib

/-!
# P2.cpp: dungeon-instance coordination

A shallow embedding of `src/P2.cpp`.

* The shared pool (`numTanks`, `numHealers`, `numDPS`, `simulationOver`) is only
  touched while `playerMutex` is held, so everything a worker does between
  acquiring the mutex and releasing it (by `lock.unlock()`, by leaving the loop
  or by suspending inside `cv.wait`) is one atomic event of the model.
* The condition variable is explicit: a worker whose wait predicate is false is
  parked (`Loc.waiting`) and only moves again after a `notify_all` of the
  program or a spurious wake-up, after which it re-acquires the mutex and
  re-evaluates the predicate.
* `long long` pool counters are integers; the decrements are guarded by
  `>= 1` / `>= 3`, so they cannot overflow. `int partiesServed` and
  `long long totalTime` are incremented without a guard; the model stores the
  two's-complement wrapped value (signed overflow is undefined in C++; every
  theorem that relies on an increment states that it does not overflow).
-/

namespace P2

/-! ## Machine integers -/

/-- Largest value of a 32-bit `int`. -/
def INT_MAX : Int := 2147483647

/-- Largest value of a 64-bit `long long`. -/
def LLONG_MAX : Int := 9223372036854775807

/-- Value stored in a 32-bit `int` (two's complement). -/
def wrapInt (x : Int) : Int := (x + 2147483648) % 4294967296 - 2147483648

/-- Value stored in a 64-bit `long long` (two's complement). -/
def wrapLongLong (x : Int) : Int :=
  (x + 9223372036854775808) % 18446744073709551616 - 9223372036854775808

/-! ## Data model -/

/-- `struct DungeonStats` (lines 26-31). -/
structure DungeonStats where
  active : Bool
  partiesServed : Int
  totalTime : Int
deriving DecidableEq, Repr

/-- The default constructor `DungeonStats()` (line 30). -/
def DungeonStats.fresh : DungeonStats := ⟨false, 0, 0⟩

/-- The globals guarded by `playerMutex` (lines 21 and 23). -/
structure Pool where
  numTanks : Int
  numHealers : Int
  numDPS : Int
  simulationOver : Bool
deriving DecidableEq, Repr

/-- The test `numTanks >= 1 && numHealers >= 1 && numDPS >= 3` (line 141). -/
def formable (p : Pool) : Bool :=
  decide (p.numTanks ≥ 1) && decide (p.numHealers ≥ 1) && decide (p.numDPS ≥ 3)

/-- The test `numTanks < 1 || numHealers < 1 || numDPS < 3` (lines 149 and 160). -/
def unformable (p : Pool) : Bool :=
  decide (p.numTanks < 1) || decide (p.numHealers < 1) || decide (p.numDPS < 3)

/-- The predicate handed to `cv.wait` (lines 140-142). -/
def waitPred (p : Pool) : Bool :=
  formable p || p.simulationOver

/-- Result of the code between the flag check and the unlock. -/
structure FormResult where
  pool : Pool
  success : Bool
  notified : Bool
deriving DecidableEq, Repr

/-- Lines 156-158: `numTanks--; numHealers--; numDPS -= 3;`. -/
def consume (p : Pool) : Pool :=
  { p with numTanks := p.numTanks - 1,
           numHealers := p.numHealers - 1,
           numDPS := p.numDPS - 3 }

/-- Lines 149-163 of `dungeonConsumer`: the pre-consumption test, the three
decrements and the post-consumption test. `success = false` is the `break` of
line 152; `notified` records whether `cv.notify_all()` was called. -/
def formGroup (p : Pool) : FormResult :=
  if unformable p then
    ⟨{ p with simulationOver := true }, false, true⟩
  else
    let q := consume p
    if unformable q then
      ⟨{ q with simulationOver := true }, true, true⟩
    else
      ⟨q, true, false⟩

/-- The contract of `tryFormGroup` as the specification words it: the
predicate `tanks >= 1 and healers >= 1 and dealers >= 3` is evaluated; when it
holds the counters go down by (1, 1, 3), the call succeeds and `exhausted` is
set if the new counters fail the predicate; when it does not hold `exhausted`
is set and the call fails. -/
def tryFormGroupContract (p : Pool) : Pool × Bool :=
  if 1 ≤ p.numTanks ∧ 1 ≤ p.numHealers ∧ 3 ≤ p.numDPS then
    let q : Pool := ⟨p.numTanks - 1, p.numHealers - 1, p.numDPS - 3, p.simulationOver⟩
    if 1 ≤ q.numTanks ∧ 1 ≤ q.numHealers ∧ 3 ≤ q.numDPS then (q, true)
    else (⟨q.numTanks, q.numHealers, q.numDPS, true⟩, true)
  else (⟨p.numTanks, p.numHealers, p.numDPS, true⟩, false)

/-- Where a worker thread stands in `dungeonConsumer`. -/
inductive Loc where
  /-- About to acquire `playerMutex` and evaluate the wait predicate (line 138). -/
  | ready
  /-- Suspended inside `cv.wait`, mutex released (line 140). -/
  | waiting
  /-- After `lock.unlock()` with a party taken (line 165), before line 170. -/
  | formed
  /-- `active` set, duration drawn, sleeping (lines 170-179). -/
  | running (dungeonTime : Int)
  /-- Left the `while (true)` loop (lines 146 and 152). -/
  | terminated
deriving DecidableEq, Repr

/-- The process state while the workers run. -/
structure World where
  pool : Pool
  minDungeonTime : Int
  maxDungeonTime : Int
  instanceStats : List DungeonStats
  threads : List Loc
deriving DecidableEq, Repr

/-- Effect of `cv.notify_all()` on the parked workers. -/
def wakeAll (ths : List Loc) : List Loc :=
  ths.map fun l => if l = Loc.waiting then Loc.ready else l

/-- Lines 138-165 for worker `i`, run under `playerMutex`: the wait predicate,
the flag check, then `formGroup`. -/
def enter (s : World) (i : Nat) : World :=
  if waitPred s.pool = false then
    { s with threads := s.threads.set i Loc.waiting }
  else if s.pool.simulationOver = true then
    { s with threads := s.threads.set i Loc.terminated }
  else
    let r := formGroup s.pool
    let ths := if r.notified = true then wakeAll s.threads else s.threads
    { s with pool := r.pool,
             threads := ths.set i (if r.success = true then Loc.formed else Loc.terminated) }

/-- Lines 182-187: the statistics update after a run of `dungeonTime` seconds. -/
def recordRun (d : DungeonStats) (dungeonTime : Int) : DungeonStats :=
  { active := false,
    partiesServed := wrapInt (d.partiesServed + 1),
    totalTime := wrapLongLong (d.totalTime + dungeonTime) }

/-- The atomic moves of one worker through `dungeonConsumer`. -/
inductive Move where
  /-- Acquire the mutex and run lines 138-165. -/
  | enter
  /-- Spurious wake-up inside `cv.wait`. -/
  | wake
  /-- Set `active` and draw `dis(gen)` (lines 168-178). -/
  | start (dungeonTime : Int)
  /-- Finish sleeping and record the run (lines 179-187). -/
  | finish
deriving DecidableEq, Repr

/-- `dungeonConsumer(instanceId)` (lines 132-195) as a step function: the
effect of one move of worker `instanceId` on the process state, `none` when
the worker is not at the place in its loop where the move starts. -/
def dungeonConsumer (s : World) (instanceId : Nat) : Move → Option World
  | Move.enter =>
    if s.threads[instanceId]? = some Loc.ready then some (enter s instanceId) else none
  | Move.wake =>
    if s.threads[instanceId]? = some Loc.waiting then
      some { s with threads := s.threads.set instanceId Loc.ready }
    else none
  | Move.start dungeonTime =>
    match s.threads[instanceId]?, s.instanceStats[instanceId]? with
    | some Loc.formed, some d =>
      if s.minDungeonTime ≤ dungeonTime ∧ dungeonTime ≤ s.maxDungeonTime then
        some { s with instanceStats := s.instanceStats.set instanceId { d with active := true },
                      threads := s.threads.set instanceId (Loc.running dungeonTime) }
      else none
    | _, _ => none
  | Move.finish =>
    match s.threads[instanceId]?, s.instanceStats[instanceId]? with
    | some (Loc.running dungeonTime), some d =>
      some { s with instanceStats := s.instanceStats.set instanceId (recordRun d dungeonTime),
                    threads := s.threads.set instanceId Loc.ready }
    | _, _ => none

/-- The atomic events of an execution: a move of one worker, or the
`cv.notify_all()` of `main` (line 228). -/
inductive Event where
  | worker (instanceId : Nat) (m : Move)
  | notifyMain
deriving DecidableEq, Repr

/-- Worker `i` acquires the mutex and runs lines 138-165. -/
@[reducible, match_pattern]
def Event.enter (i : Nat) : Event := Event.worker i Move.enter

/-- Spurious wake-up of worker `i` inside `cv.wait`. -/
@[reducible, match_pattern]
def Event.wake (i : Nat) : Event := Event.worker i Move.wake

/-- Worker `i` sets `active` and draws `dungeonTime` (lines 168-178). -/
@[reducible, match_pattern]
def Event.start (i : Nat) (dungeonTime : Int) : Event :=
  Event.worker i (Move.start dungeonTime)

/-- Worker `i` finishes sleeping and records the run (lines 179-187). -/
@[reducible, match_pattern]
def Event.finish (i : Nat) : Event := Event.worker i Move.finish

/-- One event; `none` when the event is not enabled in `s`. -/
def step (s : World) : Event → Option World
  | Event.worker i m => dungeonConsumer s i m
  | Event.notifyMain => some { s with threads := wakeAll s.threads }

/-- An execution: the events of a schedule, one after the other. -/
def run (s : World) : List Event → Option World
  | [] => some s
  | e :: es => (step s e).bind fun s' => run s' es

/-- The six configuration globals (lines 21-22). -/
structure Globals where
  numDungeons : Int
  numTanks : Int
  numHealers : Int
  numDPS : Int
  minDungeonTime : Int
  maxDungeonTime : Int
deriving DecidableEq, Repr

/-- Lines 205-212 of `main`: the clamp of `numDungeons` to `int`. -/
def numDungeonsToRun (g : Globals) : Int :=
  if g.numDungeons > INT_MAX then INT_MAX else wrapInt g.numDungeons

/-- Lines 219-226 of `main`: one fresh statistics entry and one started worker
per instance; `simulationOver` has its initial value `false` (line 23). After
a successful `readConfigFile` the count is 0 (no `n` line) or at least 1. -/
def mainInit (g : Globals) : World :=
  { pool := ⟨g.numTanks, g.numHealers, g.numDPS, false⟩,
    minDungeonTime := g.minDungeonTime,
    maxDungeonTime := g.maxDungeonTime,
    instanceStats := List.replicate (numDungeonsToRun g).toNat DungeonStats.fresh,
    threads := List.replicate (numDungeonsToRun g).toNat Loc.ready }

/-- Lines 237-239 of `main`: the sum of `partiesServed` over all instances. -/
def totalCountPartiesServed (s : World) : Int :=
  (s.instanceStats.map fun d => d.partiesServed).sum

/-- Every worker has left its loop (so `join` returns for each). -/
def allTerminated (s : World) : Prop :=
  ∀ l ∈ s.threads, l = Loc.terminated

instance (s : World) : Decidable (allTerminated s) := by
  unfold allTerminated; infer_instance

/-! ## Configuration reading -/

/-- The characters `trim` strips: `" \t"` (lines 48-49). -/
def isBlank (c : Char) : Bool :=
  c = ' ' || c = Char.ofNat 9

/-- `trim` (lines 47-51): drop blanks and tabs at both ends. -/
def trim (s : List Char) : List Char :=
  ((s.dropWhile isBlank).reverse.dropWhile isBlank).reverse

/-- Lines 68-71: split a line at its first `=`; `none` when it has none. -/
def splitAtEq : List Char → Option (List Char × List Char)
  | [] => none
  | c :: cs =>
    if c = '=' then some ([], cs)
    else (splitAtEq cs).map fun kv => (c :: kv.1, kv.2)

/-- `isspace` of the C locale: blank, and `\t \n \v \f \r`. -/
def isSpace (c : Char) : Bool :=
  c = ' ' || (decide (9 ≤ c.toNat) && decide (c.toNat ≤ 13))

/-- Value of a string of decimal digits. -/
def digitsValue (ds : List Char) : Nat :=
  ds.foldl (fun acc c => 10 * acc + (c.toNat - 48)) 0

/-- The library conversion behind `std::stoll` and `std::stoi` (base 10):
leading white space is skipped, a sign is optional, the longest run of digits
is read and what follows it is ignored. `none` stands for either exception:
`invalid_argument` (no digit) or `out_of_range` (value outside `lo..hi`);
`readConfigFile` answers both with `return false` (lines 118-124). -/
def parseInteger (lo hi : Int) (s : List Char) : Option Int :=
  let body := s.dropWhile isSpace
  let signed : Bool × List Char :=
    match body with
    | '-' :: r => (true, r)
    | '+' :: r => (false, r)
    | _ => (false, body)
  let ds := signed.2.takeWhile Char.isDigit
  if ds = [] then none
  else
    let v : Int := if signed.1 = true then -(digitsValue ds : Int) else (digitsValue ds : Int)
    if v < lo ∨ hi < v then none else some v

/-- `std::stoll`. -/
def stoll (s : List Char) : Option Int :=
  parseInteger (-LLONG_MAX - 1) LLONG_MAX s

/-- `std::stoi`. -/
def stoi (s : List Char) : Option Int :=
  parseInteger (-INT_MAX - 1) INT_MAX s

/-- The body of the `while (getline(file, line))` loop (lines 68-124) for one
line; `none` is `return false`. -/
def applyLine (g : Globals) (line : List Char) : Option Globals :=
  match splitAtEq line with
  | none => some g
  | some kv =>
    let key := trim kv.1
    let value := trim kv.2
    if key = ['n'] then
      match stoll value with
      | none => none
      | some x => if x < 1 then none else some { g with numDungeons := x }
    else if key = ['t'] then
      match stoll value with
      | none => none
      | some x => if x < 1 then none else some { g with numTanks := x }
    else if key = ['h'] then
      match stoll value with
      | none => none
      | some x => if x < 1 then none else some { g with numHealers := x }
    else if key = ['d'] then
      match stoll value with
      | none => none
      | some x => if x < 1 then none else some { g with numDPS := x }
    else if key = ['t', '1'] then
      match stoi value with
      | none => none
      | some x => if x ≤ 0 then none else some { g with minDungeonTime := x }
    else if key = ['t', '2'] then
      match stoi value with
      | none => none
      | some x =>
        if x ≤ 0 then none
        else if x < g.minDungeonTime then none
        else some { g with maxDungeonTime := x }
    else some g

/-- The `getline` loop (lines 67-126). -/
def readLines (g : Globals) : List (List Char) → Option Globals
  | [] => some g
  | l :: ls => (applyLine g l).bind fun g' => readLines g' ls

/-- The globals before `readConfigFile` runs (lines 21-22). -/
def Globals.initial : Globals := ⟨0, 0, 0, 0, 0, 0⟩

/-- `readConfigFile` (lines 55-127). The argument is the content of
`config.txt` as its lines, `none` when the file cannot be opened; a file of
zero bytes has no line. The answer is `none` for `return false` and the
globals as loaded for `return true`. -/
def readConfigFile (file : Option (List String)) : Option Globals :=
  match file with
  | none => none
  | some [] => none
  | some lines => readLines Globals.initial (lines.map String.toList)

/-- Lines 199-226 of `main`: exit code `1` when `readConfigFile` fails, else
the state in which the workers start. -/
def mainStart (file : Option (List String)) : Except Int World :=
  match readConfigFile file with
  | none => Except.error 1
  | some g => Except.ok (mainInit g)

/-- The constraints the configuration is documented to satisfy. -/
def ValidConfig (g : Globals) : Prop :=
  1 ≤ g.numDungeons ∧ 1 ≤ g.numTanks ∧ 1 ≤ g.numHealers ∧ 1 ≤ g.numDPS ∧
  0 < g.minDungeonTime ∧ 0 < g.maxDungeonTime ∧ g.minDungeonTime ≤ g.maxDungeonTime

instance (g : Globals) : Decidable (ValidConfig g) := by
  unfold ValidConfig; infer_instance

/-- The transitions of `step`, one constructor per path through the code. -/
inductive Trans (s : World) : World → Prop where
  /-- The wait predicate is false: the worker is parked. -/
  | park (i : Nat) (hi : s.threads[i]? = some Loc.ready) (hw : waitPred s.pool = false) :
      Trans s { s with threads := s.threads.set i Loc.waiting }
  /-- The flag is set: the worker leaves the loop (line 146). -/
  | leave (i : Nat) (hi : s.threads[i]? = some Loc.ready)
      (hover : s.pool.simulationOver = true) :
      Trans s { s with threads := s.threads.set i Loc.terminated }
  /-- The flag is clear, the wait predicate holds and the pre-consumption test
  fires (line 152). -/
  | giveUp (i : Nat) (hi : s.threads[i]? = some Loc.ready)
      (hw : waitPred s.pool = true) (hover : s.pool.simulationOver = false)
      (hu : unformable s.pool = true) :
      Trans s { s with pool := { s.pool with simulationOver := true },
                       threads := (wakeAll s.threads).set i Loc.terminated }
  /-- A party is taken and another one can still be formed. -/
  | take (i : Nat) (hi : s.threads[i]? = some Loc.ready)
      (hover : s.pool.simulationOver = false) (hf : unformable s.pool = false)
      (hq : unformable (consume s.pool) = false) :
      Trans s { s with pool := consume s.pool, threads := s.threads.set i Loc.formed }
  /-- A party is taken and it was the last one (lines 160-163). -/
  | takeLast (i : Nat) (hi : s.threads[i]? = some Loc.ready)
      (hover : s.pool.simulationOver = false) (hf : unformable s.pool = false)
      (hq : unformable (consume s.pool) = true) :
      Trans s { s with pool := { consume s.pool with simulationOver := true },
                       threads := (wakeAll s.threads).set i Loc.formed }
  /-- A spurious wake-up. -/
  | wake (i : Nat) (hi : s.threads[i]? = some Loc.waiting) :
      Trans s { s with threads := s.threads.set i Loc.ready }
  /-- The `notify_all` of `main`. -/
  | notifyMain : Trans s { s with threads := wakeAll s.threads }
  /-- The run starts. -/
  | start (i : Nat) (dungeonTime : Int) (d : DungeonStats)
      (hi : s.threads[i]? = some Loc.formed) (hd : s.instanceStats[i]? = some d)
      (hlo : s.minDungeonTime ≤ dungeonTime) (hhi : dungeonTime ≤ s.maxDungeonTime) :
      Trans s { s with instanceStats := s.instanceStats.set i { d with active := true },
                       threads := s.threads.set i (Loc.running dungeonTime) }
  /-- The run ends. -/
  | finish (i : Nat) (dungeonTime : Int) (d : DungeonStats)
      (hi : s.threads[i]? = some (Loc.running dungeonTime))
      (hd : s.instanceStats[i]? = some d) :
      Trans s { s with instanceStats := s.instanceStats.set i (recordRun d dungeonTime),
                       threads := s.threads.set i Loc.ready }

/-- One for a worker that holds a party it has not yet recorded. -/
def flight : Loc → Int
  | Loc.formed => 1
  | Loc.running _ => 1
  | _ => 0

/-- Number of parties taken whose run is not yet recorded. -/
def inFlight (ths : List Loc) : Int :=
  (ths.map flight).sum

/-- While the flag is set no worker is parked inside `cv.wait`. -/
def NoneParked (s : World) : Prop :=
  s.pool.simulationOver = true → ∀ l ∈ s.threads, l ≠ Loc.waiting

/-- The flag is set exactly when a party was taken and none can be formed. -/
def FlagInv (t0 : Int) (s : World) : Prop :=
  s.pool.numTanks ≤ t0 ∧
  (s.pool.simulationOver = true → s.pool.numTanks < t0 ∧ unformable s.pool = true) ∧
  (s.pool.simulationOver = false → s.pool.numTanks = t0 ∨ unformable s.pool = false)

/-- Worker `j` is where it was, or was woken, or has left its loop. -/
def GateOnly (s s' : World) (j : Nat) : Prop :=
  s'.threads[j]? = s.threads[j]? ∨ s'.threads[j]? = some Loc.terminated ∨
  (s.threads[j]? = some Loc.waiting ∧ s'.threads[j]? = some Loc.ready)

/-- A never-formable pool: the state only ever differs from the start in which
workers are parked. -/
def Stuck (s0 s : World) : Prop :=
  s.pool = s0.pool ∧ s.instanceStats = s0.instanceStats ∧
  ∀ l ∈ s.threads, l = Loc.ready ∨ l = Loc.waiting

/-- Bookkeeping of parties against the initial counters of `g`: the three
counters have lost the same number of parties, no counter is negative, every
`partiesServed` is non-negative, parties recorded plus parties in flight are
the parties taken, and a worker only leaves its loop with the flag set. -/
def CountInv (g : Globals) (s : World) : Prop :=
  s.threads.length = (numDungeonsToRun g).toNat ∧
  s.pool.numHealers = g.numHealers - (g.numTanks - s.pool.numTanks) ∧
  s.pool.numDPS = g.numDPS - 3 * (g.numTanks - s.pool.numTanks) ∧
  (0 ≤ s.pool.numTanks ∧ 0 ≤ s.pool.numHealers ∧ 0 ≤ s.pool.numDPS) ∧
  (∀ d ∈ s.instanceStats, 0 ≤ d.partiesServed) ∧
  totalCountPartiesServed s + inFlight s.threads = g.numTanks - s.pool.numTanks ∧
  (Loc.terminated ∈ s.threads → s.pool.simulationOver = true)

/-- One full iteration of the loop of worker 0 with a run of one second. -/
def soloRound : List Event :=
  [Event.enter 0, Event.start 0 1, Event.finish 0]

/-- The schedule in which worker 0 goes through `k` iterations in a row. -/
def soloRounds : Nat → List Event
  | 0 => []
  | k + 1 => soloRound ++ soloRounds k

/-- A single worker at the gate, flag clear, runs of exactly one second. -/
def soloWorld (t h d served time : Int) : World :=
  ⟨⟨t, h, d, false⟩, 1, 1, [⟨false, served, time⟩], [Loc.ready]⟩

/-- The `active` entry of a worker is set exactly while it is in its run, and
the stored `partiesServed` fits an `int`. -/
def ActiveInv (s : World) : Prop :=
  ∀ (i : Nat) (d : DungeonStats), s.instanceStats[i]? = some d →
    (d.active = true ↔ ∃ dt, s.threads[i]? = some (Loc.running dt)) ∧
    -2147483648 ≤ d.partiesServed

/-- The key `readConfigFile` reads from a line; `none` for a line without `=`. -/
def keyOf (line : List Char) : Option (List Char) :=
  (splitAtEq line).map fun kv => trim kv.1

/-- The six keys `readConfigFile` knows. -/
def knownKeys : List (List Char) :=
  [['n'], ['t'], ['h'], ['d'], ['t', '1'], ['t', '2']]

/-- The global a key is loaded into. -/
def Globals.valueOf (g : Globals) (key : List Char) : Int :=
  if key = ['n'] then g.numDungeons
  else if key = ['t'] then g.numTanks
  else if key = ['h'] then g.numHealers
  else if key = ['d'] then g.numDPS
  else if key = ['t', '1'] then g.minDungeonTime
  else if key = ['t', '2'] then g.maxDungeonTime
  else 0

/-- Some line of the file carries the key. -/
def mentions (key : List Char) (lines : List (List Char)) : Prop :=
  ∃ l ∈ lines, keyOf l = some key

/-- What a worker needs to get through a run: a statistics entry of its own
and a non-empty range of durations. -/
def CanRun (s : World) : Prop :=
  s.instanceStats.length = s.threads.length ∧ s.minDungeonTime ≤ s.maxDungeonTime

/-- State `s'` is `s` with worker `i` moved to `l`, up to the statistics. -/
def MovedTo (s s' : World) (i : Nat) (l : Loc) : Prop :=
  s'.pool = s.pool ∧ s'.minDungeonTime = s.minDungeonTime ∧
  s'.maxDungeonTime = s.maxDungeonTime ∧
  s'.instanceStats.length = s.instanceStats.length ∧ s'.threads = s.threads.set i l

/-- From a formable start: while the flag is clear a party can be formed, and a
worker is only out of its loop once the flag is set. -/
def LiveInv (s : World) : Prop :=
  CanRun s ∧ 0 < s.threads.length ∧
  (s.pool.simulationOver = false → unformable s.pool = false) ∧
  (Loc.terminated ∈ s.threads → s.pool.simulationOver = true)

/-! ## Basic facts -/

theorem unformable_eq_not_formable (p : Pool) : unformable p = !formable p := by
  rw [Bool.eq_iff_iff]
  simp only [unformable, formable, Bool.or_eq_true, Bool.and_eq_true, decide_eq_true_eq,
    Bool.not_eq_true', Bool.and_eq_false_iff, decide_eq_false_iff_not]
  omega

theorem step_enter (s : World) (i : Nat) :
    step s (Event.enter i) =
      if s.threads[i]? = some Loc.ready then some (enter s i) else none := rfl

theorem step_wake (s : World) (i : Nat) :
    step s (Event.wake i) =
      if s.threads[i]? = some Loc.waiting then
        some { s with threads := s.threads.set i Loc.ready }
      else none := rfl

theorem step_worker (s : World) (i : Nat) (m : Move) :
    step s (Event.worker i m) = dungeonConsumer s i m := rfl

theorem step_trans {s s' : World} {e : Event} (h : step s e = some s') : Trans s s' := by
  cases e with
  | notifyMain =>
    simp only [step, Option.some.injEq] at h
    subst h
    exact Trans.notifyMain
  | worker i m =>
    rw [step_worker] at h
    cases m with
    | enter =>
      simp only [dungeonConsumer] at h
      split at h
      · rename_i hi
        simp only [Option.some.injEq] at h
        subst h
        unfold enter
        split
        · rename_i hw
          exact Trans.park i hi hw
        · rename_i hw
          simp only [Bool.not_eq_false] at hw
          split
          · rename_i hover
            exact Trans.leave i hi hover
          · rename_i hover
            simp only [Bool.not_eq_true] at hover
            unfold formGroup
            by_cases hu : unformable s.pool = true
            · simp only [hu, if_true]
              exact Trans.giveUp i hi hw hover hu
            · simp only [Bool.not_eq_true] at hu
              by_cases hq : unformable (consume s.pool) = true
              · simp [hu, hq]
                exact Trans.takeLast i hi hover hu hq
              · simp only [Bool.not_eq_true] at hq
                simp [hu, hq]
                exact Trans.take i hi hover hu hq
      · simp at h
    | wake =>
      simp only [dungeonConsumer] at h
      split at h
      · rename_i hi
        simp only [Option.some.injEq] at h
        subst h
        exact Trans.wake i hi
      · simp at h
    | start dt =>
      simp only [dungeonConsumer] at h
      split at h
      · rename_i d hi hd
        split at h
        · rename_i hr
          simp only [Option.some.injEq] at h
          subst h
          exact Trans.start i dt d hi hd hr.1 hr.2
        · simp at h
      · simp at h
    | finish =>
      simp only [dungeonConsumer] at h
      split at h
      · rename_i dt d hi hd
        simp only [Option.some.injEq] at h
        subst h
        exact Trans.finish i dt d hi hd
      · simp at h

/-- An invariant of every transition holds along every execution. -/
theorem run_invariant (P : World → Prop)
    (hstep : ∀ s s', P s → Trans s s' → P s') :
    ∀ (es : List Event) (s s' : World), P s → run s es = some s' → P s' := by
  intro es
  induction es with
  | nil =>
    intro s s' hP h
    simp only [run, Option.some.injEq] at h
    subst h
    exact hP
  | cons e es ih =>
    intro s s' hP h
    simp only [run] at h
    cases hs : step s e with
    | none => simp [hs] at h
    | some s1 =>
      simp only [hs, Option.some_bind] at h
      exact ih s1 s' (hstep s s1 hP (step_trans hs)) h

theorem run_append (s : World) (es fs : List Event) :
    run s (es ++ fs) = (run s es).bind fun s' => run s' fs := by
  induction es generalizing s with
  | nil => simp [run]
  | cons e es ih =>
    simp only [List.cons_append, run]
    cases hs : step s e with
    | none => simp
    | some s1 => simp [ih]

theorem formable_iff (p : Pool) :
    formable p = true ↔ 1 ≤ p.numTanks ∧ 1 ≤ p.numHealers ∧ 3 ≤ p.numDPS := by
  simp only [formable, Bool.and_eq_true, decide_eq_true_eq, ge_iff_le]
  tauto

theorem unformable_iff (p : Pool) :
    unformable p = true ↔ p.numTanks < 1 ∨ p.numHealers < 1 ∨ p.numDPS < 3 := by
  simp only [unformable, Bool.or_eq_true, decide_eq_true_eq]
  tauto

theorem unformable_false_iff (p : Pool) :
    unformable p = false ↔ 1 ≤ p.numTanks ∧ 1 ≤ p.numHealers ∧ 3 ≤ p.numDPS := by
  rw [unformable_eq_not_formable, Bool.not_eq_false', formable_iff]

theorem formGroup_unformable {p : Pool} (hu : unformable p = true) :
    formGroup p = ⟨{ p with simulationOver := true }, false, true⟩ := by
  simp only [formGroup, hu, if_true]

theorem formGroup_last {p : Pool} (hu : unformable p = false)
    (hq : unformable (consume p) = true) :
    formGroup p = ⟨{ consume p with simulationOver := true }, true, true⟩ := by
  simp only [formGroup, hu, hq, if_true, Bool.false_eq_true, if_false]

theorem formGroup_more {p : Pool} (hu : unformable p = false)
    (hq : unformable (consume p) = false) :
    formGroup p = ⟨consume p, true, false⟩ := by
  simp only [formGroup, hu, hq, Bool.false_eq_true, if_false]

/-- The flag never goes back to `false` in a transition. -/
theorem trans_flag_mono {s s' : World} (h : Trans s s')
    (hover : s.pool.simulationOver = true) : s'.pool.simulationOver = true := by
  cases h <;> simp_all [consume]

/-- Every transition leaves the counters alone or takes exactly one party. -/
theorem trans_counters {s s' : World} (h : Trans s s') :
    (s'.pool.numTanks = s.pool.numTanks ∧ s'.pool.numHealers = s.pool.numHealers ∧
      s'.pool.numDPS = s.pool.numDPS) ∨
    (s'.pool.numTanks = s.pool.numTanks - 1 ∧ s'.pool.numHealers = s.pool.numHealers - 1 ∧
      s'.pool.numDPS = s.pool.numDPS - 3) := by
  cases h <;> simp [consume]

/-- Non-negative counters stay non-negative. -/
theorem trans_nonneg {s s' : World} (h : Trans s s')
    (hs : 0 ≤ s.pool.numTanks ∧ 0 ≤ s.pool.numHealers ∧ 0 ≤ s.pool.numDPS) :
    0 ≤ s'.pool.numTanks ∧ 0 ≤ s'.pool.numHealers ∧ 0 ≤ s'.pool.numDPS := by
  cases h with
  | take i hi hover hf hq =>
    rw [unformable_false_iff] at hf
    simp only [consume]
    omega
  | takeLast i hi hover hf hq =>
    rw [unformable_false_iff] at hf
    simp only [consume]
    omega
  | _ => simpa using hs

theorem mem_wakeAll {l : Loc} {ths : List Loc} (h : l ∈ wakeAll ths) :
    l ≠ Loc.waiting ∧ (l ∈ ths ∨ l = Loc.ready) := by
  simp only [wakeAll, List.mem_map] at h
  obtain ⟨a, ha, rfl⟩ := h
  by_cases hw : a = Loc.waiting
  · simp [hw]
  · simp [hw, ha]

theorem waitPred_of_over {p : Pool} (h : p.simulationOver = true) : waitPred p = true := by
  simp [waitPred, h]

theorem enter_of_over {s : World} (i : Nat) (h : s.pool.simulationOver = true) :
    enter s i = { s with threads := s.threads.set i Loc.terminated } := by
  simp [enter, waitPred_of_over h, h]

/-- The dead branch: the wait predicate and a clear flag exclude an unformable pool. -/
theorem not_unformable_of_waitPred {p : Pool} (hw : waitPred p = true)
    (hover : p.simulationOver = false) : unformable p = false := by
  rw [unformable_eq_not_formable]
  simp only [waitPred, hover, Bool.or_false] at hw
  simp [hw]

/-- An event that sets the flag leaves no worker parked. -/
theorem trans_sets_flag_wakes {s s' : World} (h : Trans s s')
    (h0 : s.pool.simulationOver = false) (h1 : s'.pool.simulationOver = true) :
    ∀ l ∈ s'.threads, l ≠ Loc.waiting := by
  cases h with
  | giveUp i hi hw hover hu =>
    intro l hl
    rcases List.mem_or_eq_of_mem_set hl with hm | rfl
    · exact (mem_wakeAll hm).1
    · simp
  | takeLast i hi hover hf hq =>
    intro l hl
    rcases List.mem_or_eq_of_mem_set hl with hm | rfl
    · exact (mem_wakeAll hm).1
    · simp
  | take i hi hover hf hq => simp [consume, h0] at h1
  | _ => simp [h0] at h1

/-- An event that sets the flag moves every parked worker back to the gate. -/
theorem trans_sets_flag_wakes_each {s s' : World} (h : Trans s s')
    (h0 : s.pool.simulationOver = false) (h1 : s'.pool.simulationOver = true)
    (j : Nat) (hj : s.threads[j]? = some Loc.waiting) :
    s'.threads[j]? = some Loc.ready := by
  have hwake : (wakeAll s.threads)[j]? = some Loc.ready := by
    simp [wakeAll, hj]
  cases h with
  | giveUp i hi hw hover hu =>
    have hij : i ≠ j := by
      intro hij
      subst hij
      rw [hi] at hj
      simp at hj
    simp only [List.getElem?_set_ne hij]
    exact hwake
  | takeLast i hi hover hf hq =>
    have hij : i ≠ j := by
      intro hij
      subst hij
      rw [hi] at hj
      simp at hj
    simp only [List.getElem?_set_ne hij]
    exact hwake
  | take i hi hover hf hq => simp [consume, h0] at h1
  | _ => simp [h0] at h1

theorem trans_noneParked {s s' : World} (h : Trans s s') (hs : NoneParked s) :
    NoneParked s' := by
  intro h1
  by_cases h0 : s.pool.simulationOver = true
  · have hs0 := hs h0
    cases h with
    | park i hi hw => simp [waitPred, h0] at hw
    | giveUp i hi hw hover hu => simp [h0] at hover
    | take i hi hover hf hq => simp [h0] at hover
    | takeLast i hi hover hf hq => simp [h0] at hover
    | notifyMain =>
      intro l hl
      exact (mem_wakeAll hl).1
    | _ =>
      intro l hl
      rcases List.mem_or_eq_of_mem_set hl with hm | rfl
      · exact hs0 l hm
      · simp
  · simp only [Bool.not_eq_true] at h0
    exact trans_sets_flag_wakes h h0 h1

theorem noneParked_init (g : Globals) : NoneParked (mainInit g) := by
  intro h
  simp [mainInit] at h

theorem trans_flagInv {t0 : Int} {s s' : World} (h : Trans s s') (hs : FlagInv t0 s) :
    FlagInv t0 s' := by
  obtain ⟨h1, h2, h3⟩ := hs
  cases h with
  | giveUp i hi hw hover hu =>
    rw [not_unformable_of_waitPred hw hover] at hu
    simp at hu
  | take i hi hover hf hq =>
    refine ⟨?_, ?_, ?_⟩
    · simp only [consume]; omega
    · intro h; simp [consume, hover] at h
    · intro _; exact Or.inr hq
  | takeLast i hi hover hf hq =>
    refine ⟨?_, ?_, ?_⟩
    · simp only [consume]; omega
    · intro _
      refine ⟨by simp only [consume]; omega, ?_⟩
      rw [unformable_iff] at hq ⊢
      simpa [consume] using hq
    · intro h; simp at h
  | _ => exact ⟨h1, h2, h3⟩

theorem flagInv_init (g : Globals) : FlagInv g.numTanks (mainInit g) := by
  refine ⟨?_, ?_, ?_⟩ <;> simp [mainInit]

theorem length_wakeAll (ths : List Loc) : (wakeAll ths).length = ths.length := by
  simp [wakeAll]

/-- The four live paths through lines 138-165 for worker `i`. -/
theorem enter_cases (s : World) (i : Nat) :
    (waitPred s.pool = false ∧
      enter s i = { s with threads := s.threads.set i Loc.waiting }) ∨
    (s.pool.simulationOver = true ∧
      enter s i = { s with threads := s.threads.set i Loc.terminated }) ∨
    (s.pool.simulationOver = false ∧ unformable s.pool = false ∧
      unformable (consume s.pool) = false ∧
      enter s i = { s with pool := consume s.pool,
                           threads := s.threads.set i Loc.formed }) ∨
    (s.pool.simulationOver = false ∧ unformable s.pool = false ∧
      unformable (consume s.pool) = true ∧
      enter s i = { s with pool := { consume s.pool with simulationOver := true },
                           threads := (wakeAll s.threads).set i Loc.formed }) := by
  by_cases hw : waitPred s.pool = false
  · left
    exact ⟨hw, by simp [enter, hw]⟩
  · simp only [Bool.not_eq_false] at hw
    by_cases hover : s.pool.simulationOver = true
    · right; left
      exact ⟨hover, enter_of_over i hover⟩
    · simp only [Bool.not_eq_true] at hover
      have hu := not_unformable_of_waitPred hw hover
      by_cases hq : unformable (consume s.pool) = true
      · right; right; right
        refine ⟨hover, hu, hq, ?_⟩
        simp [enter, hw, hover, formGroup_last hu hq]
      · simp only [Bool.not_eq_true] at hq
        right; right; left
        refine ⟨hover, hu, hq, ?_⟩
        simp [enter, hw, hover, formGroup_more hu hq]

theorem trans_stuck {s0 s s' : World} (hu : unformable s0.pool = true)
    (h0 : s0.pool.simulationOver = false) (h : Trans s s') (hs : Stuck s0 s) :
    Stuck s0 s' := by
  obtain ⟨hp, hst, hth⟩ := hs
  have hmem : ∀ {i : Nat} {l : Loc}, s.threads[i]? = some l → l = Loc.ready ∨ l = Loc.waiting :=
    fun hi => hth _ (List.mem_iff_getElem?.mpr ⟨_, hi⟩)
  have hset : ∀ (i : Nat) (x : Loc), (x = Loc.ready ∨ x = Loc.waiting) →
      ∀ l ∈ s.threads.set i x, l = Loc.ready ∨ l = Loc.waiting := by
    intro i x hx l hl
    rcases List.mem_or_eq_of_mem_set hl with hm | rfl
    · exact hth l hm
    · exact hx
  cases h with
  | park i hi hw => exact ⟨hp, hst, hset i _ (Or.inr rfl)⟩
  | leave i hi hover => rw [hp, h0] at hover; simp at hover
  | giveUp i hi hw hover hu' =>
    rw [not_unformable_of_waitPred hw hover] at hu'
    simp at hu'
  | take i hi hover hf hq => rw [hp, hu] at hf; simp at hf
  | takeLast i hi hover hf hq => rw [hp, hu] at hf; simp at hf
  | wake i hi => exact ⟨hp, hst, hset i _ (Or.inl rfl)⟩
  | notifyMain =>
    refine ⟨hp, hst, fun l hl => ?_⟩
    rcases (mem_wakeAll hl).2 with hm | rfl
    · exact hth l hm
    · exact Or.inl rfl
  | start i dt d hi hd hlo hhi => rcases hmem hi with h | h <;> simp at h
  | finish i dt d hi hd => rcases hmem hi with h | h <;> simp at h

/-! ## Sums over the per-worker tables -/

theorem sum_map_set {α : Type} (f : α → Int) (x y : α) :
    ∀ (l : List α) (i : Nat), l[i]? = some y →
      ((l.set i x).map f).sum = (l.map f).sum - f y + f x := by
  intro l
  induction l with
  | nil => intro i h; simp at h
  | cons a l ih =>
    intro i h
    cases i with
    | zero =>
      simp only [List.getElem?_cons_zero, Option.some.injEq] at h
      subst h
      simp only [List.set_cons_zero, List.map_cons, List.sum_cons]
      omega
    | succ i =>
      simp only [List.getElem?_cons_succ] at h
      simp only [List.set_cons_succ, List.map_cons, List.sum_cons, ih i h]
      omega

theorem sum_map_nonneg {α : Type} (f : α → Int) :
    ∀ (l : List α), (∀ z ∈ l, 0 ≤ f z) → 0 ≤ (l.map f).sum := by
  intro l
  induction l with
  | nil => intro _; simp
  | cons a l ih =>
    intro h
    have h1 := h a (List.mem_cons_self _ _)
    have h2 := ih fun z hz => h z (List.mem_cons_of_mem _ hz)
    simp only [List.map_cons, List.sum_cons]
    omega

theorem le_sum_map {α : Type} (f : α → Int) (y : α) :
    ∀ (l : List α) (i : Nat), (∀ z ∈ l, 0 ≤ f z) → l[i]? = some y →
      f y ≤ (l.map f).sum := by
  intro l
  induction l with
  | nil => intro i _ h; simp at h
  | cons a l ih =>
    intro i hn h
    have h1 := hn a (List.mem_cons_self _ _)
    have hn' : ∀ z ∈ l, 0 ≤ f z := fun z hz => hn z (List.mem_cons_of_mem _ hz)
    have h2 := sum_map_nonneg f l hn'
    cases i with
    | zero =>
      simp only [List.getElem?_cons_zero, Option.some.injEq] at h
      subst h
      simp only [List.map_cons, List.sum_cons]
      omega
    | succ i =>
      simp only [List.getElem?_cons_succ] at h
      have h3 := ih i hn' h
      simp only [List.map_cons, List.sum_cons]
      omega

theorem sum_map_eq_zero {α : Type} (f : α → Int) :
    ∀ (l : List α), (∀ z ∈ l, f z = 0) → (l.map f).sum = 0 := by
  intro l
  induction l with
  | nil => intro _; simp
  | cons a l ih =>
    intro h
    have h1 := h a (List.mem_cons_self _ _)
    have h2 := ih fun z hz => h z (List.mem_cons_of_mem _ hz)
    simp only [List.map_cons, List.sum_cons]
    omega

theorem flight_nonneg (l : Loc) : 0 ≤ flight l := by
  cases l <;> simp [flight]

theorem inFlight_wakeAll (ths : List Loc) : inFlight (wakeAll ths) = inFlight ths := by
  unfold inFlight wakeAll
  rw [List.map_map]
  congr 1
  apply List.map_congr_left
  intro l _
  by_cases h : l = Loc.waiting
  · simp [h, flight]
  · simp [h]

theorem getElem?_wakeAll (ths : List Loc) (i : Nat) :
    (wakeAll ths)[i]? = (ths[i]?).map fun l => if l = Loc.waiting then Loc.ready else l := by
  simp [wakeAll]

theorem inFlight_set {ths : List Loc} {i : Nat} {y : Loc} (x : Loc)
    (h : ths[i]? = some y) : inFlight (ths.set i x) = inFlight ths - flight y + flight x :=
  sum_map_set flight x y ths i h

theorem wrapInt_eq {x : Int} (h1 : -2147483648 ≤ x) (h2 : x ≤ INT_MAX) : wrapInt x = x := by
  unfold wrapInt
  unfold INT_MAX at h2
  omega

theorem wrapLongLong_eq {x : Int} (h1 : -LLONG_MAX - 1 ≤ x) (h2 : x ≤ LLONG_MAX) :
    wrapLongLong x = x := by
  unfold wrapLongLong
  unfold LLONG_MAX at h1 h2
  omega

theorem wrapInt_range (x : Int) : -2147483648 ≤ wrapInt x ∧ wrapInt x ≤ INT_MAX := by
  unfold wrapInt INT_MAX
  omega

/-! ## Conservation -/

theorem countInv_init (g : Globals) (ht : 1 ≤ g.numTanks) (hh : 1 ≤ g.numHealers)
    (hd : 1 ≤ g.numDPS) : CountInv g (mainInit g) := by
  refine ⟨by simp [mainInit], by simp [mainInit], by simp [mainInit], ?_, ?_, ?_, ?_⟩
  · simp only [mainInit]; omega
  · intro d hd
    simp only [mainInit, List.mem_replicate] at hd
    rw [hd.2]
    simp [DungeonStats.fresh]
  · have h1 : totalCountPartiesServed (mainInit g) = 0 := by
      unfold totalCountPartiesServed
      apply sum_map_eq_zero
      intro z hz
      simp only [mainInit, List.mem_replicate] at hz
      rw [hz.2]
      rfl
    have h2 : inFlight (mainInit g).threads = 0 := by
      unfold inFlight
      apply sum_map_eq_zero
      intro z hz
      simp only [mainInit, List.mem_replicate] at hz
      rw [hz.2]
      rfl
    rw [h1, h2]
    simp [mainInit]
  · intro hm
    simp [mainInit] at hm

theorem trans_countInv {g : Globals}
    (hfit : min g.numTanks (min g.numHealers (g.numDPS / 3)) ≤ INT_MAX)
    {s s' : World} (h : Trans s s') (hs : CountInv g s) : CountInv g s' := by
  obtain ⟨hlen, hH, hD, hnn, hps, hsum, hterm⟩ := hs
  simp only [totalCountPartiesServed] at hsum
  have hmem : ∀ (i : Nat) (x : Loc), x ≠ Loc.terminated →
      Loc.terminated ∈ s.threads.set i x → Loc.terminated ∈ s.threads := by
    intro i x hx hm
    rcases List.mem_or_eq_of_mem_set hm with h | h
    · exact h
    · exact absurd h.symm hx
  cases h with
  | park i hi hw =>
    refine ⟨by simpa using hlen, hH, hD, hnn, hps, ?_, fun hm => hterm (hmem i _ (by simp) hm)⟩
    simp only [totalCountPartiesServed, inFlight_set _ hi, flight]
    omega
  | leave i hi hover =>
    refine ⟨by simpa using hlen, hH, hD, hnn, hps, ?_, fun _ => hover⟩
    simp only [totalCountPartiesServed, inFlight_set _ hi, flight]
    omega
  | giveUp i hi hw hover hu =>
    rw [not_unformable_of_waitPred hw hover] at hu
    simp at hu
  | take i hi hover hf hq =>
    rw [unformable_false_iff] at hf
    refine ⟨by simpa using hlen, ?_, ?_, ?_, hps, ?_, ?_⟩
    · simp only [consume]; omega
    · simp only [consume]; omega
    · simp only [consume]; omega
    · simp only [totalCountPartiesServed, inFlight_set _ hi, flight, consume]
      omega
    · intro hm
      have := hterm (hmem i _ (by simp) hm)
      rw [hover] at this
      simp at this
  | takeLast i hi hover hf hq =>
    rw [unformable_false_iff] at hf
    have hi' : (wakeAll s.threads)[i]? = some Loc.ready := by
      rw [getElem?_wakeAll, hi]; rfl
    refine ⟨by simpa [length_wakeAll] using hlen, ?_, ?_, ?_, hps, ?_, fun _ => rfl⟩
    · simp only [consume]; omega
    · simp only [consume]; omega
    · simp only [consume]; omega
    · simp only [totalCountPartiesServed, inFlight_set _ hi', inFlight_wakeAll, flight, consume]
      omega
  | wake i hi =>
    refine ⟨by simpa using hlen, hH, hD, hnn, hps, ?_, fun hm => hterm (hmem i _ (by simp) hm)⟩
    simp only [totalCountPartiesServed, inFlight_set _ hi, flight]
    omega
  | notifyMain =>
    refine ⟨by simpa [length_wakeAll] using hlen, hH, hD, hnn, hps, ?_, ?_⟩
    · simp only [totalCountPartiesServed, inFlight_wakeAll]
      exact hsum
    · intro hm
      rcases (mem_wakeAll hm).2 with h | h
      · exact hterm h
      · simp at h
  | start i dt d hi hd hlo hhi =>
    refine ⟨by simpa using hlen, hH, hD, hnn, ?_, ?_, fun hm => hterm (hmem i _ (by simp) hm)⟩
    · intro z hz
      rcases List.mem_or_eq_of_mem_set hz with h | h
      · exact hps z h
      · rw [h]
        exact hps d (List.mem_iff_getElem?.mpr ⟨i, hd⟩)
    · simp only [totalCountPartiesServed, inFlight_set _ hi, flight,
        sum_map_set (fun d => d.partiesServed) _ d _ i hd]
      omega
  | finish i dt d hi hd =>
    have hd0 : 0 ≤ d.partiesServed := hps d (List.mem_iff_getElem?.mpr ⟨i, hd⟩)
    have hle : d.partiesServed ≤ (s.instanceStats.map fun d => d.partiesServed).sum :=
      le_sum_map (fun d => d.partiesServed) d _ i hps hd
    have hfl : flight (Loc.running dt) ≤ inFlight s.threads :=
      le_sum_map flight _ _ i (fun z _ => flight_nonneg z) hi
    simp only [flight] at hfl
    have hwrap : wrapInt (d.partiesServed + 1) = d.partiesServed + 1 := by
      apply wrapInt_eq
      · omega
      · omega
    refine ⟨by simpa using hlen, hH, hD, hnn, ?_, ?_, fun hm => hterm (hmem i _ (by simp) hm)⟩
    · intro z hz
      rcases List.mem_or_eq_of_mem_set hz with h | h
      · exact hps z h
      · rw [h]
        simp only [recordRun, hwrap]
        omega
    · simp only [totalCountPartiesServed, inFlight_set _ hi, flight,
        sum_map_set (fun d => d.partiesServed) _ d _ i hd, recordRun, hwrap]
      omega

/-! ## A single worker running many sessions -/

theorem solo_round (t h d served time : Int) (ht : 2 ≤ t) (hh : 2 ≤ h) (hd : 6 ≤ d)
    (hs1 : -2147483648 ≤ served + 1) (hs2 : served + 1 ≤ INT_MAX)
    (ht1 : -LLONG_MAX - 1 ≤ time + 1) (ht2 : time + 1 ≤ LLONG_MAX) :
    run (soloWorld t h d served time) soloRound =
      some (soloWorld (t - 1) (h - 1) (d - 3) (served + 1) (time + 1)) := by
  have hu : unformable ⟨t, h, d, false⟩ = false := by
    rw [unformable_false_iff]
    dsimp only
    omega
  have hq : unformable (consume ⟨t, h, d, false⟩) = false := by
    rw [unformable_false_iff]
    dsimp only [consume]
    omega
  have hw : waitPred ⟨t, h, d, false⟩ = true := by
    simp only [waitPred, Bool.or_false]
    rw [formable_iff]
    dsimp only
    omega
  simp [soloRound, soloWorld, run, step, dungeonConsumer, enter, hw, formGroup_more hu hq, consume, recordRun,
    wrapInt_eq hs1 hs2, wrapLongLong_eq ht1 ht2]

theorem solo_rounds (k : Nat) :
    ∀ (t h d served time : Int), (k : Int) < t → (k : Int) < h → 3 * (k : Int) + 3 ≤ d →
      -2147483648 ≤ served → served + k ≤ INT_MAX →
      -LLONG_MAX - 1 ≤ time → time + k ≤ LLONG_MAX →
      run (soloWorld t h d served time) (soloRounds k) =
        some (soloWorld (t - k) (h - k) (d - 3 * k) (served + k) (time + k)) := by
  induction k with
  | zero =>
    intro t h d served time _ _ _ _ _ _ _
    simp [soloRounds, run]
  | succ k ih =>
    intro t h d served time ht hh hd hs1 hs2 ht1 ht2
    push_cast at ht hh hd hs2 ht2
    have hI : (0 : Int) ≤ k := Int.ofNat_nonneg k
    unfold INT_MAX at hs2
    unfold LLONG_MAX at ht1 ht2
    rw [soloRounds, run_append,
      solo_round t h d served time (by omega) (by omega) (by omega) (by omega)
        (by unfold INT_MAX; omega) (by unfold LLONG_MAX; omega) (by unfold LLONG_MAX; omega)]
    simp only [Option.some_bind]
    rw [ih (t - 1) (h - 1) (d - 3) (served + 1) (time + 1) (by omega) (by omega) (by omega)
      (by omega) (by unfold INT_MAX; omega) (by unfold LLONG_MAX; omega)
      (by unfold LLONG_MAX; omega)]
    have e1 : t - 1 - (k : Int) = t - ((k + 1 : Nat) : Int) := by push_cast; omega
    have e2 : h - 1 - (k : Int) = h - ((k + 1 : Nat) : Int) := by push_cast; omega
    have e3 : d - 3 - 3 * (k : Int) = d - 3 * ((k + 1 : Nat) : Int) := by push_cast; omega
    have e4 : served + 1 + (k : Int) = served + ((k + 1 : Nat) : Int) := by push_cast; omega
    have e5 : time + 1 + (k : Int) = time + ((k + 1 : Nat) : Int) := by push_cast; omega
    rw [e1, e2, e3, e4, e5]

/-! ## The `active` flag -/

theorem running_set_iff {ths : List Loc} {i : Nat} {x y : Loc} (hi : ths[i]? = some y)
    (hx : ∀ dt, x ≠ Loc.running dt) (hy : ∀ dt, y ≠ Loc.running dt) (j : Nat) (dt : Int) :
    (ths.set i x)[j]? = some (Loc.running dt) ↔ ths[j]? = some (Loc.running dt) := by
  have hlt : i < ths.length := (List.getElem?_eq_some.mp hi).1
  by_cases hij : i = j
  · subst hij
    rw [List.getElem?_set_self hlt, hi]
    simp only [Option.some.injEq]
    exact ⟨fun h => absurd h (hx dt), fun h => absurd h (hy dt)⟩
  · rw [List.getElem?_set_ne hij]

theorem running_wakeAll_iff (ths : List Loc) (j : Nat) (dt : Int) :
    (wakeAll ths)[j]? = some (Loc.running dt) ↔ ths[j]? = some (Loc.running dt) := by
  rw [getElem?_wakeAll]
  cases h : ths[j]? with
  | none => simp
  | some l =>
    by_cases hw : l = Loc.waiting
    · simp [hw]
    · simp [hw]

theorem activeInv_of_running_iff {s : World} (hs : ActiveInv s) (ths : List Loc)
    (h : ∀ (j : Nat) (dt : Int),
      ths[j]? = some (Loc.running dt) ↔ s.threads[j]? = some (Loc.running dt))
    (p : Pool) : ActiveInv { s with pool := p, threads := ths } := by
  intro j d hd
  obtain ⟨h1, h2⟩ := hs j d hd
  refine ⟨?_, h2⟩
  rw [h1]
  exact ⟨fun ⟨dt, hdt⟩ => ⟨dt, (h j dt).mpr hdt⟩, fun ⟨dt, hdt⟩ => ⟨dt, (h j dt).mp hdt⟩⟩

theorem trans_activeInv {s s' : World} (h : Trans s s') (hs : ActiveInv s) :
    ActiveInv s' := by
  cases h with
  | park i hi hw =>
    exact activeInv_of_running_iff hs _
      (running_set_iff hi (by simp) (by simp)) s.pool
  | leave i hi hover =>
    exact activeInv_of_running_iff hs _
      (running_set_iff hi (by simp) (by simp)) s.pool
  | giveUp i hi hw hover hu =>
    have hi' : (wakeAll s.threads)[i]? = some Loc.ready := by
      rw [getElem?_wakeAll, hi]; rfl
    exact activeInv_of_running_iff hs _
      (fun j dt => (running_set_iff hi' (by simp) (by simp) j dt).trans
        (running_wakeAll_iff _ j dt)) _
  | take i hi hover hf hq =>
    exact activeInv_of_running_iff hs _
      (running_set_iff hi (by simp) (by simp)) _
  | takeLast i hi hover hf hq =>
    have hi' : (wakeAll s.threads)[i]? = some Loc.ready := by
      rw [getElem?_wakeAll, hi]; rfl
    exact activeInv_of_running_iff hs _
      (fun j dt => (running_set_iff hi' (by simp) (by simp) j dt).trans
        (running_wakeAll_iff _ j dt)) _
  | wake i hi =>
    exact activeInv_of_running_iff hs _
      (running_set_iff hi (by simp) (by simp)) s.pool
  | notifyMain =>
    exact activeInv_of_running_iff hs _ (running_wakeAll_iff _) s.pool
  | start i dt d hi hd hlo hhi =>
    have hlt : i < s.threads.length := (List.getElem?_eq_some.mp hi).1
    have hlt' : i < s.instanceStats.length := (List.getElem?_eq_some.mp hd).1
    intro j d2 hd2
    by_cases hij : i = j
    · subst hij
      simp only [List.getElem?_set_self hlt', Option.some.injEq] at hd2
      subst hd2
      simp only [List.getElem?_set_self hlt]
      refine ⟨?_, (hs i d hd).2⟩
      simp
    · simp only [List.getElem?_set_ne hij] at hd2 ⊢
      exact hs j d2 hd2
  | finish i dt d hi hd =>
    have hlt : i < s.threads.length := (List.getElem?_eq_some.mp hi).1
    have hlt' : i < s.instanceStats.length := (List.getElem?_eq_some.mp hd).1
    intro j d2 hd2
    by_cases hij : i = j
    · subst hij
      simp only [List.getElem?_set_self hlt', Option.some.injEq] at hd2
      subst hd2
      simp only [List.getElem?_set_self hlt]
      refine ⟨⟨fun h => ?_, fun ⟨_, h⟩ => ?_⟩, (wrapInt_range _).1⟩
      · simp [recordRun] at h
      · simp at h
    · simp only [List.getElem?_set_ne hij] at hd2 ⊢
      exact hs j d2 hd2

theorem activeInv_init (g : Globals) : ActiveInv (mainInit g) := by
  intro i d hd
  have hm : d ∈ (mainInit g).instanceStats := List.mem_iff_getElem?.mpr ⟨i, hd⟩
  simp only [mainInit, List.mem_replicate] at hm
  rw [hm.2]
  refine ⟨⟨fun h => by simp [DungeonStats.fresh] at h, fun ⟨dt, h⟩ => ?_⟩,
    by simp [DungeonStats.fresh]⟩
  have hm2 : Loc.running dt ∈ (mainInit g).threads := List.mem_iff_getElem?.mpr ⟨i, h⟩
  simp [mainInit] at hm2

/-! ## Configuration reading -/

theorem applyLine_value {g0 g1 : Globals} {l : List Char} (h : applyLine g0 l = some g1)
    (key : List Char) (hkey : key ∈ knownKeys) :
    (keyOf l = some key → 1 ≤ g1.valueOf key) ∧
    (keyOf l ≠ some key → g1.valueOf key = g0.valueOf key) := by
  simp only [knownKeys, List.mem_cons, List.mem_singleton, List.not_mem_nil, or_false] at hkey
  unfold applyLine at h
  unfold keyOf
  cases hsp : splitAtEq l with
  | none =>
    simp only [hsp, Option.some.injEq] at h
    subst h
    simp
  | some kv =>
    simp only [hsp] at h
    simp only [Option.map_some', Option.some.injEq, ne_eq]
    generalize trim kv.1 = k at h
    generalize trim kv.2 = v at h
    split_ifs at h with h1 h2 h3 h4 h5 h6
    all_goals first
      | (simp only [Option.some.injEq] at h
         subst h
         refine ⟨fun hk => ?_, fun _ => rfl⟩
         subst hk
         rcases hkey with hk | hk | hk | hk | hk | hk <;> simp_all)
      | (split at h
         · simp at h
         · split_ifs at h
           simp only [Option.some.injEq] at h
           subst h
           subst k
           rcases hkey with hk | hk | hk | hk | hk | hk <;>
             (subst hk; simp [Globals.valueOf] <;> omega))

theorem readLines_value :
    ∀ (lines : List (List Char)) (g0 g : Globals), readLines g0 lines = some g →
      ∀ key ∈ knownKeys,
        (mentions key lines → 1 ≤ g.valueOf key) ∧
        (¬ mentions key lines → g.valueOf key = g0.valueOf key) := by
  intro lines
  induction lines with
  | nil =>
    intro g0 g h key _
    simp only [readLines, Option.some.injEq] at h
    subst h
    simp [mentions]
  | cons l ls ih =>
    intro g0 g h key hkey
    simp only [readLines] at h
    cases h1 : applyLine g0 l with
    | none => simp [h1] at h
    | some g1 =>
      simp only [h1, Option.some_bind] at h
      obtain ⟨ihyes, ihno⟩ := ih g1 g h key hkey
      obtain ⟨ayes, ano⟩ := applyLine_value h1 key hkey
      by_cases hm : mentions key ls
      · refine ⟨fun _ => ihyes hm, fun hn => ?_⟩
        exact absurd (by obtain ⟨x, hx, hk⟩ := hm
                         exact ⟨x, List.mem_cons_of_mem _ hx, hk⟩) hn
      · by_cases hk : keyOf l = some key
        · refine ⟨fun _ => ?_, fun hn => ?_⟩
          · rw [ihno hm]
            exact ayes hk
          · exact absurd ⟨l, List.mem_cons_self _ _, hk⟩ hn
        · refine ⟨fun hyes => ?_, fun _ => ?_⟩
          · obtain ⟨x, hx, hxk⟩ := hyes
            rcases List.mem_cons.mp hx with rfl | hx'
            · exact absurd hxk hk
            · exact absurd ⟨x, hx', hxk⟩ hm
          · rw [ihno hm]
            exact ano hk

/-! ## Termination from a formable start -/

theorem step_enter_of {s : World} {i : Nat} (hi : s.threads[i]? = some Loc.ready) :
    step s (Event.enter i) = some (enter s i) := by
  simp [step_enter, hi]

theorem step_wake_of {s : World} {i : Nat} (hi : s.threads[i]? = some Loc.waiting) :
    step s (Event.wake i) = some { s with threads := s.threads.set i Loc.ready } := by
  simp [step_wake, hi]

theorem step_start_of {s : World} {i : Nat} {dt : Int} {d : DungeonStats}
    (hi : s.threads[i]? = some Loc.formed) (hd : s.instanceStats[i]? = some d)
    (h1 : s.minDungeonTime ≤ dt) (h2 : dt ≤ s.maxDungeonTime) :
    step s (Event.start i dt) =
      some { s with instanceStats := s.instanceStats.set i { d with active := true },
                    threads := s.threads.set i (Loc.running dt) } := by
  simp [step, dungeonConsumer, hi, hd, h1, h2]

theorem step_finish_of {s : World} {i : Nat} {dt : Int} {d : DungeonStats}
    (hi : s.threads[i]? = some (Loc.running dt)) (hd : s.instanceStats[i]? = some d) :
    step s (Event.finish i) =
      some { s with instanceStats := s.instanceStats.set i (recordRun d dt),
                    threads := s.threads.set i Loc.ready } := by
  simp [step, dungeonConsumer, hi, hd]

theorem set_eq_self {α : Type} (x : α) :
    ∀ (l : List α) (i : Nat), l[i]? = some x → l.set i x = l := by
  intro l
  induction l with
  | nil => intro i h; simp at h
  | cons a l ih =>
    intro i h
    cases i with
    | zero =>
      simp only [List.getElem?_cons_zero, Option.some.injEq] at h
      subst h
      rfl
    | succ i =>
      simp only [List.getElem?_cons_succ] at h
      simp only [List.set_cons_succ, ih i h]

/-- A worker that has not left its loop can be brought back to the gate. -/
theorem to_ready {s : World} {i : Nat} {l : Loc} (hb : CanRun s)
    (hi : s.threads[i]? = some l) (hl : l ≠ Loc.terminated) :
    ∃ (es : List Event) (s' : World), run s es = some s' ∧ MovedTo s s' i Loc.ready := by
  have hlt : i < s.threads.length := (List.getElem?_eq_some.mp hi).1
  have hlt' : i < s.instanceStats.length := by rw [hb.1]; exact hlt
  obtain ⟨d, hd⟩ : ∃ d, s.instanceStats[i]? = some d :=
    ⟨s.instanceStats[i], List.getElem?_eq_getElem hlt'⟩
  cases l with
  | ready =>
    exact ⟨[], s, rfl, rfl, rfl, rfl, rfl, (set_eq_self _ _ _ hi).symm⟩
  | waiting =>
    exact ⟨[Event.wake i], { s with threads := s.threads.set i Loc.ready },
      by simp [run, step_wake_of hi], rfl, rfl, rfl, rfl, rfl⟩
  | terminated => exact absurd rfl hl
  | running dt =>
    exact ⟨[Event.finish i],
      { s with instanceStats := s.instanceStats.set i (recordRun d dt),
               threads := s.threads.set i Loc.ready },
      by simp [run, step_finish_of hi hd], rfl, rfl, rfl, by simp, rfl⟩
  | formed =>
    refine ⟨[Event.start i s.minDungeonTime, Event.finish i],
      { s with
        instanceStats := (s.instanceStats.set i { d with active := true }).set i
          (recordRun { d with active := true } s.minDungeonTime),
        threads := s.threads.set i Loc.ready }, ?_, rfl, rfl, rfl, by simp, rfl⟩
    have h1 := step_start_of hi hd (le_refl _) hb.2
    have h2 : step { s with
          instanceStats := s.instanceStats.set i { d with active := true },
          threads := s.threads.set i (Loc.running s.minDungeonTime) } (Event.finish i) = _ :=
      @step_finish_of _ i s.minDungeonTime { d with active := true }
        (by simp [List.getElem?_set_self hlt]) (by simp [List.getElem?_set_self hlt'])
    simp only [run, h1, Option.some_bind, h2, List.set_set]

theorem canRun_of_movedTo {s s' : World} {i : Nat} {l : Loc} (hb : CanRun s)
    (hm : MovedTo s s' i l) : CanRun s' := by
  obtain ⟨_, h2, h3, h4, h5⟩ := hm
  refine ⟨?_, ?_⟩
  · rw [h4, h5, List.length_set]; exact hb.1
  · rw [h2, h3]; exact hb.2

/-- With the flag set, any worker can be brought out of its loop. -/
theorem to_terminated {s : World} {i : Nat} (hb : CanRun s)
    (hover : s.pool.simulationOver = true) (hlt : i < s.threads.length) :
    ∃ (es : List Event) (s' : World), run s es = some s' ∧ MovedTo s s' i Loc.terminated := by
  obtain ⟨l, hi⟩ : ∃ l, s.threads[i]? = some l := ⟨s.threads[i], List.getElem?_eq_getElem hlt⟩
  by_cases hl : l = Loc.terminated
  · subst hl
    exact ⟨[], s, rfl, rfl, rfl, rfl, rfl, (set_eq_self _ _ _ hi).symm⟩
  · obtain ⟨es, s1, hrun, hp, hmin, hmax, hst, hth⟩ := to_ready hb hi hl
    have hover1 : s1.pool.simulationOver = true := by rw [hp]; exact hover
    have hi1 : s1.threads[i]? = some Loc.ready := by
      rw [hth]; exact List.getElem?_set_self hlt
    refine ⟨es ++ [Event.enter i], { s1 with threads := s1.threads.set i Loc.terminated },
      ?_, hp, hmin, hmax, hst, ?_⟩
    · rw [run_append, hrun]
      simp [run, step_enter_of hi1, enter_of_over i hover1]
    · simp [hth, List.set_set]

/-- With the flag set, the first `k` workers can be brought out of their loops. -/
theorem retire_upto (k : Nat) :
    ∀ (s : World), CanRun s → s.pool.simulationOver = true →
      ∃ (es : List Event) (s' : World), run s es = some s' ∧ CanRun s' ∧
        s'.pool = s.pool ∧ s'.threads.length = s.threads.length ∧
        (∀ j, j < k → j < s'.threads.length → s'.threads[j]? = some Loc.terminated) := by
  induction k with
  | zero =>
    intro s hb _
    exact ⟨[], s, rfl, hb, rfl, rfl, fun j hj => absurd hj (Nat.not_lt_zero j)⟩
  | succ k ih =>
    intro s hb hover
    obtain ⟨es, s1, hrun, hb1, hp1, hlen1, hdone⟩ := ih s hb hover
    by_cases hk : k < s1.threads.length
    · have hover1 : s1.pool.simulationOver = true := by rw [hp1]; exact hover
      obtain ⟨fs, s2, hrun2, hm⟩ := to_terminated hb1 hover1 hk
      have hb2 := canRun_of_movedTo hb1 hm
      obtain ⟨hp2, _, _, _, hth2⟩ := hm
      refine ⟨es ++ fs, s2, by rw [run_append, hrun]; exact hrun2, hb2, by rw [hp2, hp1],
        by rw [hth2, List.length_set, hlen1], ?_⟩
      intro j hj hjlt
      rw [hth2]
      by_cases hjk : k = j
      · subst hjk
        exact List.getElem?_set_self hk
      · rw [List.getElem?_set_ne hjk]
        rw [hth2, List.length_set] at hjlt
        exact hdone j (by omega) hjlt
    · refine ⟨es, s1, hrun, hb1, hp1, hlen1, ?_⟩
      intro j hj hjlt
      exact hdone j (by omega) hjlt

theorem trans_liveInv {s s' : World} (h : Trans s s') (hs : LiveInv s) : LiveInv s' := by
  obtain ⟨⟨hlen, hmm⟩, hpos, hform, hterm⟩ := hs
  have hmem : ∀ (i : Nat) (x : Loc), x ≠ Loc.terminated →
      Loc.terminated ∈ s.threads.set i x → Loc.terminated ∈ s.threads := by
    intro i x hx hm
    rcases List.mem_or_eq_of_mem_set hm with h | h
    · exact h
    · exact absurd h.symm hx
  cases h with
  | park i hi hw =>
    exact ⟨⟨by simpa using hlen, hmm⟩, by simpa using hpos, hform,
      fun hm => hterm (hmem i _ (by simp) hm)⟩
  | leave i hi hover =>
    exact ⟨⟨by simpa using hlen, hmm⟩, by simpa using hpos, hform, fun _ => hover⟩
  | giveUp i hi hw hover hu =>
    rw [not_unformable_of_waitPred hw hover] at hu
    simp at hu
  | take i hi hover hf hq =>
    refine ⟨⟨by simpa using hlen, hmm⟩, by simpa using hpos, fun _ => hq, fun hm => ?_⟩
    have := hterm (hmem i _ (by simp) hm)
    rw [hover] at this
    simp at this
  | takeLast i hi hover hf hq =>
    exact ⟨⟨by simpa [length_wakeAll] using hlen, hmm⟩, by simpa [length_wakeAll] using hpos,
      fun h => by simp at h, fun _ => rfl⟩
  | wake i hi =>
    exact ⟨⟨by simpa using hlen, hmm⟩, by simpa using hpos, hform,
      fun hm => hterm (hmem i _ (by simp) hm)⟩
  | notifyMain =>
    refine ⟨⟨by simpa [length_wakeAll] using hlen, hmm⟩, by simpa [length_wakeAll] using hpos,
      hform, fun hm => ?_⟩
    rcases (mem_wakeAll hm).2 with h | h
    · exact hterm h
    · simp at h
  | start i dt d hi hd hlo hhi =>
    exact ⟨⟨by simpa using hlen, hmm⟩, by simpa using hpos, hform,
      fun hm => hterm (hmem i _ (by simp) hm)⟩
  | finish i dt d hi hd =>
    exact ⟨⟨by simpa using hlen, hmm⟩, by simpa using hpos, hform,
      fun hm => hterm (hmem i _ (by simp) hm)⟩

/-- From a state whose flag is clear, some schedule takes parties until the
flag is set. -/
theorem exhaust (k : Nat) :
    ∀ (s : World), LiveInv s → s.pool.simulationOver = false → s.pool.numTanks ≤ k →
      ∃ (es : List Event) (s' : World), run s es = some s' ∧
        s'.pool.simulationOver = true := by
  induction k with
  | zero =>
    intro s hL hover hk
    have hu := hL.2.2.1 hover
    rw [unformable_false_iff] at hu
    omega
  | succ k ih =>
    intro s hL hover hk
    obtain ⟨hb, hpos, hform, hterm⟩ := hL
    have hu := hform hover
    obtain ⟨l, hi⟩ : ∃ l, s.threads[0]? = some l :=
      ⟨s.threads[0], List.getElem?_eq_getElem hpos⟩
    have hl : l ≠ Loc.terminated := by
      intro h
      subst h
      have := hterm (List.mem_iff_getElem?.mpr ⟨0, hi⟩)
      rw [hover] at this
      simp at this
    obtain ⟨es, s1, hrun1, hp, hmin, hmax, hst, hth⟩ := to_ready hb hi hl
    have hi1 : s1.threads[0]? = some Loc.ready := by
      rw [hth]; exact List.getElem?_set_self hpos
    have hrun2 : run s (es ++ [Event.enter 0]) = some (enter s1 0) := by
      rw [run_append, hrun1]
      simp [run, step_enter_of hi1]
    have hw : waitPred s1.pool = true := by
      rw [hp]
      have hf : formable s.pool = true := by
        rw [unformable_eq_not_formable] at hu
        simpa using hu
      simp [waitPred, hf]
    rcases enter_cases s1 0 with ⟨hw', _⟩ | ⟨hover', _⟩ | ⟨_, _, hq, he⟩ | ⟨_, _, _, he⟩
    · rw [hw] at hw'; simp at hw'
    · rw [hp, hover] at hover'; simp at hover'
    · have hL2 : LiveInv (enter s1 0) :=
        run_invariant LiveInv (fun _ _ hP hT => trans_liveInv hT hP) _ s _
          ⟨hb, hpos, hform, hterm⟩ hrun2
      have hover2 : (enter s1 0).pool.simulationOver = false := by
        rw [he]
        simp only [consume]
        rw [hp]
        exact hover
      have hk2 : (enter s1 0).pool.numTanks ≤ k := by
        rw [he]
        simp only [consume]
        rw [hp]
        push_cast at hk
        omega
      obtain ⟨fs, s3, hrun3, hover3⟩ := ih (enter s1 0) hL2 hover2 hk2
      exact ⟨(es ++ [Event.enter 0]) ++ fs, s3, by rw [run_append, hrun2]; exact hrun3, hover3⟩
    · exact ⟨es ++ [Event.enter 0], enter s1 0, hrun2, by rw [he]⟩

theorem liveInv_init (g : Globals) (hn : 1 ≤ g.numDungeons)
    (hf : formable ⟨g.numTanks, g.numHealers, g.numDPS, false⟩ = true)
    (hmm : g.minDungeonTime ≤ g.maxDungeonTime) : LiveInv (mainInit g) := by
  refine ⟨⟨by simp [mainInit], hmm⟩, ?_, ?_, ?_⟩
  · simp only [mainInit, List.length_replicate]
    unfold numDungeonsToRun wrapInt INT_MAX
    split <;> omega
  · intro _
    rw [unformable_eq_not_formable]
    simp only [mainInit, hf]
    rfl
  · intro hm
    simp [mainInit] at hm

/-- When the configured pool can form a party (and n >= 1, t1 <= t2), every
reachable state has a schedule that brings all workers out of their loops. -/
theorem formable_start_can_terminate (g : Globals) (hn : 1 ≤ g.numDungeons)
    (hf : formable ⟨g.numTanks, g.numHealers, g.numDPS, false⟩ = true)
    (hmm : g.minDungeonTime ≤ g.maxDungeonTime) (es : List Event) (s : World)
    (hrun : run (mainInit g) es = some s) :
    ∃ (fs : List Event) (s' : World), run s fs = some s' ∧ allTerminated s' := by
  have hL : LiveInv s :=
    run_invariant LiveInv (fun _ _ hP hT => trans_liveInv hT hP) es _ s
      (liveInv_init g hn hf hmm) hrun
  obtain ⟨fs1, s1, hrun1, hover1⟩ : ∃ (fs1 : List Event) (s1 : World),
      run s fs1 = some s1 ∧ s1.pool.simulationOver = true := by
    by_cases hover : s.pool.simulationOver = true
    · exact ⟨[], s, rfl, hover⟩
    · simp only [Bool.not_eq_true] at hover
      have hnn : s.pool.numTanks ≤ (s.pool.numTanks.toNat : Int) := Int.self_le_toNat _
      exact exhaust _ s hL hover hnn
  have hL1 : LiveInv s1 :=
    run_invariant LiveInv (fun _ _ hP hT => trans_liveInv hT hP) fs1 s s1 hL hrun1
  obtain ⟨fs2, s2, hrun2, _, _, _, hdone⟩ := retire_upto s1.threads.length s1 hL1.1 hover1
  refine ⟨fs1 ++ fs2, s2, by rw [run_append, hrun1]; exact hrun2, ?_⟩
  intro l hl
  obtain ⟨j, hj⟩ := List.mem_iff_getElem?.mp hl
  have hjlt : j < s2.threads.length := (List.getElem?_eq_some.mp hj).1
  have := hdone j (by omega) hjlt
  rw [hj] at this
  exact Option.some.inj this

/-! ## The claims -/

/-- C6. The form-group step of `dungeonConsumer` (`formGroup`, lines 149-163)
equals the `tryFormGroup` contract of the specification on every pool state,
whatever the sign of its counters: it returns the same pool and the same
success flag; spelled out, a formable pool loses exactly (1, 1, 3), the call
succeeds and the flag is set when the remainder is not formable, and an
unformable pool keeps its counters, gets the flag set and the call fails. -/
theorem C6_formGroup_meets_contract (p : Pool) :
    ((formGroup p).pool, (formGroup p).success) = tryFormGroupContract p ∧
    (formable p = true →
      (formGroup p).success = true ∧
      (formGroup p).pool.numTanks = p.numTanks - 1 ∧
      (formGroup p).pool.numHealers = p.numHealers - 1 ∧
      (formGroup p).pool.numDPS = p.numDPS - 3 ∧
      (formGroup p).pool.simulationOver =
        (p.simulationOver || !formable (consume p))) ∧
    (formable p = false →
      (formGroup p).success = false ∧
      (formGroup p).pool.numTanks = p.numTanks ∧
      (formGroup p).pool.numHealers = p.numHealers ∧
      (formGroup p).pool.numDPS = p.numDPS ∧
      (formGroup p).pool.simulationOver = true) := by
  refine ⟨?_, ?_, ?_⟩
  · unfold tryFormGroupContract
    by_cases hu : unformable p = true
    · have hn : ¬ (1 ≤ p.numTanks ∧ 1 ≤ p.numHealers ∧ 3 ≤ p.numDPS) := by
        rw [unformable_iff] at hu
        omega
      rw [formGroup_unformable hu]
      simp [hn]
    · simp only [Bool.not_eq_true] at hu
      have hp := (unformable_false_iff p).mp hu
      by_cases hq : unformable (consume p) = true
      · have hn : ¬ (1 ≤ p.numTanks - 1 ∧ 1 ≤ p.numHealers - 1 ∧ 3 ≤ p.numDPS - 3) := by
          rw [unformable_iff] at hq
          simp only [consume] at hq
          omega
        rw [formGroup_last hu hq]
        simp [hp, hn, consume]
      · simp only [Bool.not_eq_true] at hq
        have hn := (unformable_false_iff _).mp hq
        simp only [consume] at hn
        rw [formGroup_more hu hq]
        simp [hp, hn, consume]
  · intro hf
    have hu : unformable p = false := by rw [unformable_eq_not_formable, hf]; rfl
    by_cases hq : unformable (consume p) = true
    · have hq' : formable (consume p) = false := by
        rw [unformable_eq_not_formable] at hq
        simpa using hq
      rw [formGroup_last hu hq, hq']
      simp [consume]
    · simp only [Bool.not_eq_true] at hq
      have hq' : formable (consume p) = true := by
        rw [unformable_eq_not_formable] at hq
        simpa using hq
      rw [formGroup_more hu hq, hq']
      simp [consume]
  · intro hf
    have hu : unformable p = true := by rw [unformable_eq_not_formable, hf]; rfl
    rw [formGroup_unformable hu]
    simp

/-- C4. The exhaustion flag is monotonic: along every execution (any number of
events of any workers, from any state), once `simulationOver` is true it is
true in the state reached. -/
theorem C4_simulationOver_monotonic (s s' : World) (es : List Event)
    (hrun : run s es = some s') (hover : s.pool.simulationOver = true) :
    s'.pool.simulationOver = true :=
  run_invariant (fun w => w.pool.simulationOver = true)
    (fun _ _ hP ht => trans_flag_mono ht hP) es s s' hover hrun

/-- C4 at a concrete execution: the flag set by the worker that took the only
party is still set after the other worker has left and the run has finished. -/
theorem C4_simulationOver_monotonic_witness :
    run ⟨⟨0, 0, 0, true⟩, 1, 1, [DungeonStats.fresh, DungeonStats.fresh],
        [Loc.formed, Loc.ready]⟩
        [Event.enter 1, Event.start 0 1, Event.finish 0, Event.enter 0] =
      some ⟨⟨0, 0, 0, true⟩, 1, 1, [⟨false, 1, 1⟩, DungeonStats.fresh],
        [Loc.terminated, Loc.terminated]⟩ ∧
    (⟨⟨0, 0, 0, true⟩, 1, 1, [⟨false, 1, 1⟩, DungeonStats.fresh],
        [Loc.terminated, Loc.terminated]⟩ : World).pool.simulationOver = true :=
  ⟨by decide, C4_simulationOver_monotonic _ _ _
    (show run ⟨⟨0, 0, 0, true⟩, 1, 1, [DungeonStats.fresh, DungeonStats.fresh],
        [Loc.formed, Loc.ready]⟩
        [Event.enter 1, Event.start 0 1, Event.finish 0, Event.enter 0] =
      some ⟨⟨0, 0, 0, true⟩, 1, 1, [⟨false, 1, 1⟩, DungeonStats.fresh],
        [Loc.terminated, Loc.terminated]⟩ by decide) (by decide)⟩

/-- C2. Atomicity: in every state reached from a configuration with counters
of at least 1, the three counters are non-negative, and every event enabled
there leaves the triple unchanged or lowers it by exactly (1, 1, 3). -/
theorem C2_atomic_consumption (g : Globals) (ht : 1 ≤ g.numTanks) (hh : 1 ≤ g.numHealers)
    (hd : 1 ≤ g.numDPS) (es : List Event) (s : World)
    (hrun : run (mainInit g) es = some s) :
    (0 ≤ s.pool.numTanks ∧ 0 ≤ s.pool.numHealers ∧ 0 ≤ s.pool.numDPS) ∧
    ∀ (e : Event) (s' : World), step s e = some s' →
      (s'.pool.numTanks = s.pool.numTanks ∧ s'.pool.numHealers = s.pool.numHealers ∧
        s'.pool.numDPS = s.pool.numDPS) ∨
      (s'.pool.numTanks = s.pool.numTanks - 1 ∧
        s'.pool.numHealers = s.pool.numHealers - 1 ∧
        s'.pool.numDPS = s.pool.numDPS - 3) := by
  refine ⟨?_, fun e s' h => trans_counters (step_trans h)⟩
  refine run_invariant
    (fun w => 0 ≤ w.pool.numTanks ∧ 0 ≤ w.pool.numHealers ∧ 0 ≤ w.pool.numDPS)
    (fun _ _ hP ht => trans_nonneg ht hP) es (mainInit g) s ?_ hrun
  simp only [mainInit]
  omega

/-- C2 at the configuration n=2, t=3, h=3, d=10 after two parties were taken. -/
theorem C2_atomic_consumption_witness :
    run (mainInit ⟨2, 3, 3, 10, 1, 1⟩) [Event.enter 0, Event.enter 1] =
      some ⟨⟨1, 1, 4, false⟩, 1, 1, [DungeonStats.fresh, DungeonStats.fresh],
        [Loc.formed, Loc.formed]⟩ ∧
    ((0 : Int) ≤ 1 ∧ (0 : Int) ≤ 1 ∧ (0 : Int) ≤ 4) ∧
    ∀ (e : Event) (s' : World),
      step ⟨⟨1, 1, 4, false⟩, 1, 1, [DungeonStats.fresh, DungeonStats.fresh],
        [Loc.formed, Loc.formed]⟩ e = some s' →
      (s'.pool.numTanks = 1 ∧ s'.pool.numHealers = 1 ∧ s'.pool.numDPS = 4) ∨
      (s'.pool.numTanks = 1 - 1 ∧ s'.pool.numHealers = 1 - 1 ∧ s'.pool.numDPS = 4 - 3) :=
  ⟨by decide,
   C2_atomic_consumption ⟨2, 3, 3, 10, 1, 1⟩ (by decide) (by decide) (by decide)
    [Event.enter 0, Event.enter 1]
    ⟨⟨1, 1, 4, false⟩, 1, 1, [DungeonStats.fresh, DungeonStats.fresh],
      [Loc.formed, Loc.formed]⟩ (by decide)⟩

/-- C7. Idempotent exhaustion: in every state whose flag is set, whatever the
counters are, a worker at the gate leaves its loop (directly when it is about
to evaluate the wait predicate, after being woken when it is parked) and
nothing else changes; and any schedule made of gate events only leaves the
pool and all statistics as they were and moves no worker anywhere but out of
its loop, so no session is formed. -/
theorem C7_exhausted_gate_only_terminates (s : World)
    (hover : s.pool.simulationOver = true) :
    (∀ i, s.threads[i]? = some Loc.ready →
      step s (Event.enter i) = some { s with threads := s.threads.set i Loc.terminated }) ∧
    (∀ i, s.threads[i]? = some Loc.waiting →
      run s [Event.wake i, Event.enter i] =
        some { s with threads := s.threads.set i Loc.terminated }) ∧
    (∀ (es : List Event) (s' : World),
      (∀ e ∈ es, ∃ i, e = Event.enter i ∨ e = Event.wake i) → run s es = some s' →
      s'.pool = s.pool ∧ s'.instanceStats = s.instanceStats ∧
      s'.minDungeonTime = s.minDungeonTime ∧ s'.maxDungeonTime = s.maxDungeonTime ∧
      ∀ j, GateOnly s s' j) := by
  refine ⟨?_, ?_, ?_⟩
  · intro i hi
    simp [step_enter, hi, enter_of_over i hover]
  · intro i hi
    have hlt : i < s.threads.length := (List.getElem?_eq_some.mp hi).1
    simp [run, step_enter, step_wake, hi, List.getElem?_set_self hlt, enter_of_over, hover]
  · intro es
    induction es generalizing s with
    | nil =>
      intro s' _ h
      simp only [run, Option.some.injEq] at h
      subst h
      exact ⟨rfl, rfl, rfl, rfl, fun j => Or.inl rfl⟩
    | cons e es ih =>
      intro s' hes h
      obtain ⟨i, hi⟩ := hes e (List.mem_cons_self _ _)
      have hes' : ∀ e' ∈ es, ∃ i, e' = Event.enter i ∨ e' = Event.wake i :=
        fun e' he' => hes e' (List.mem_cons_of_mem _ he')
      simp only [run] at h
      rcases hi with rfl | rfl
      · by_cases hr : s.threads[i]? = some Loc.ready
        · simp only [step_enter, hr, if_true, enter_of_over i hover, Option.some_bind] at h
          obtain ⟨a, b, c, d, f⟩ :=
            ih { s with threads := s.threads.set i Loc.terminated } hover s' hes' h
          refine ⟨a, b, c, d, fun j => ?_⟩
          have hlt : i < s.threads.length := (List.getElem?_eq_some.mp hr).1
          have fj := f j
          simp only [GateOnly] at fj ⊢
          by_cases hij : i = j
          · subst hij
            simp only [List.getElem?_set_self hlt] at fj
            rcases fj with h1 | h1 | ⟨h1, _⟩
            · exact Or.inr (Or.inl h1)
            · exact Or.inr (Or.inl h1)
            · simp at h1
          · simpa only [List.getElem?_set_ne hij] using fj
        · simp [step_enter, step_wake, hr] at h
      · by_cases hr : s.threads[i]? = some Loc.waiting
        · simp only [step_wake, hr, if_true, Option.some_bind] at h
          obtain ⟨a, b, c, d, f⟩ :=
            ih { s with threads := s.threads.set i Loc.ready } hover s' hes' h
          refine ⟨a, b, c, d, fun j => ?_⟩
          have hlt : i < s.threads.length := (List.getElem?_eq_some.mp hr).1
          have fj := f j
          simp only [GateOnly] at fj ⊢
          by_cases hij : i = j
          · subst hij
            simp only [List.getElem?_set_self hlt] at fj
            rcases fj with h1 | h1 | ⟨h1, _⟩
            · exact Or.inr (Or.inr ⟨hr, h1⟩)
            · exact Or.inr (Or.inl h1)
            · simp at h1
          · simpa only [List.getElem?_set_ne hij] using fj
        · simp [step_enter, step_wake, hr] at h

/-- C7 at a state whose flag is set although a party could still be formed. -/
theorem C7_exhausted_gate_only_terminates_witness :
    (⟨⟨5, 5, 15, true⟩, 1, 1, [DungeonStats.fresh, ⟨false, 2, 2⟩],
      [Loc.ready, Loc.ready]⟩ : World).pool.simulationOver = true ∧
    step ⟨⟨5, 5, 15, true⟩, 1, 1, [DungeonStats.fresh, ⟨false, 2, 2⟩],
      [Loc.ready, Loc.ready]⟩ (Event.enter 1) =
      some ⟨⟨5, 5, 15, true⟩, 1, 1, [DungeonStats.fresh, ⟨false, 2, 2⟩],
        [Loc.ready, Loc.terminated]⟩ :=
  ⟨by decide,
   (C7_exhausted_gate_only_terminates
      ⟨⟨5, 5, 15, true⟩, 1, 1, [DungeonStats.fresh, ⟨false, 2, 2⟩],
        [Loc.ready, Loc.ready]⟩ (by decide)).1 1 (by decide)⟩

/-- C9. No lost wake-up, for every execution from every state `s` in which no
worker is parked while the flag is set (the start of the workers is such a
state, and so is any state with parked workers and a clear flag):
the wait predicate holds whenever the flag is set; `formGroup` notifies
whenever it sets the flag; in any state at all, the event that sets the flag
moves every worker parked inside `cv.wait` back to the gate, leaves no worker
parked, and the next gate event of such a worker takes it out of its loop;
and in the state reached, if the flag is set, no worker is parked and every
worker at the gate is enabled and leaves its loop on its next event. -/
theorem C9_no_lost_wakeup (s : World) (es : List Event) (s' : World)
    (hs : s.pool.simulationOver = true → ∀ l ∈ s.threads, l ≠ Loc.waiting)
    (hrun : run s es = some s') :
    (∀ p : Pool, p.simulationOver = true → waitPred p = true) ∧
    (∀ p : Pool, p.simulationOver = false → (formGroup p).pool.simulationOver = true →
      (formGroup p).notified = true) ∧
    (∀ (w w' : World) (e : Event), step w e = some w' → w.pool.simulationOver = false →
      w'.pool.simulationOver = true →
      (∀ l ∈ w'.threads, l ≠ Loc.waiting) ∧
      ∀ j, w.threads[j]? = some Loc.waiting →
        w'.threads[j]? = some Loc.ready ∧
        step w' (Event.enter j) =
          some { w' with threads := w'.threads.set j Loc.terminated }) ∧
    (s'.pool.simulationOver = true →
      (∀ l ∈ s'.threads, l ≠ Loc.waiting) ∧
      ∀ i, s'.threads[i]? = some Loc.ready →
        step s' (Event.enter i) =
          some { s' with threads := s'.threads.set i Loc.terminated }) := by
  refine ⟨fun p h => waitPred_of_over h, ?_, ?_, ?_⟩
  · intro p h0 h1
    by_cases hu : unformable p = true
    · rw [formGroup_unformable hu]
    · simp only [Bool.not_eq_true] at hu
      by_cases hq : unformable (consume p) = true
      · rw [formGroup_last hu hq]
      · simp only [Bool.not_eq_true] at hq
        rw [formGroup_more hu hq] at h1
        simp [consume, h0] at h1
  · intro w w' e h h0 h1
    refine ⟨trans_sets_flag_wakes (step_trans h) h0 h1, fun j hj => ?_⟩
    have hr := trans_sets_flag_wakes_each (step_trans h) h0 h1 j hj
    exact ⟨hr, by simp [step_enter, hr, enter_of_over j h1]⟩
  · intro hover
    have hinv : NoneParked s' :=
      run_invariant NoneParked (fun _ _ hP ht => trans_noneParked ht hP) es s s' hs hrun
    refine ⟨hinv hover, fun i hi => ?_⟩
    simp [step_enter, hi, enter_of_over i hover]

/-- C9 at a state with worker 0 at the gate, workers 1 and 2 parked inside
`cv.wait` and exactly one party left: worker 0 takes the party and sets the
flag, which puts both parked workers back at the gate with nobody parked, and
each of them then leaves its loop. -/
theorem C9_no_lost_wakeup_witness :
    run ⟨⟨1, 1, 3, false⟩, 1, 1,
        [DungeonStats.fresh, DungeonStats.fresh, DungeonStats.fresh],
        [Loc.ready, Loc.waiting, Loc.waiting]⟩ [Event.enter 0] =
      some ⟨⟨0, 0, 0, true⟩, 1, 1,
        [DungeonStats.fresh, DungeonStats.fresh, DungeonStats.fresh],
        [Loc.formed, Loc.ready, Loc.ready]⟩ ∧
    ((∀ l ∈ [Loc.formed, Loc.ready, Loc.ready], l ≠ Loc.waiting) ∧
      ∀ i, (⟨⟨0, 0, 0, true⟩, 1, 1,
          [DungeonStats.fresh, DungeonStats.fresh, DungeonStats.fresh],
          [Loc.formed, Loc.ready, Loc.ready]⟩ : World).threads[i]? = some Loc.ready →
        step ⟨⟨0, 0, 0, true⟩, 1, 1,
            [DungeonStats.fresh, DungeonStats.fresh, DungeonStats.fresh],
            [Loc.formed, Loc.ready, Loc.ready]⟩ (Event.enter i) =
          some ⟨⟨0, 0, 0, true⟩, 1, 1,
            [DungeonStats.fresh, DungeonStats.fresh, DungeonStats.fresh],
            [Loc.formed, Loc.ready, Loc.ready].set i Loc.terminated⟩) ∧
    run ⟨⟨1, 1, 3, false⟩, 1, 1,
        [DungeonStats.fresh, DungeonStats.fresh, DungeonStats.fresh],
        [Loc.ready, Loc.waiting, Loc.waiting]⟩
        [Event.enter 0, Event.enter 2, Event.enter 1] =
      some ⟨⟨0, 0, 0, true⟩, 1, 1,
        [DungeonStats.fresh, DungeonStats.fresh, DungeonStats.fresh],
        [Loc.formed, Loc.terminated, Loc.terminated]⟩ :=
  ⟨by decide,
   (C9_no_lost_wakeup
      ⟨⟨1, 1, 3, false⟩, 1, 1,
        [DungeonStats.fresh, DungeonStats.fresh, DungeonStats.fresh],
        [Loc.ready, Loc.waiting, Loc.waiting]⟩ [Event.enter 0]
      ⟨⟨0, 0, 0, true⟩, 1, 1,
        [DungeonStats.fresh, DungeonStats.fresh, DungeonStats.fresh],
        [Loc.formed, Loc.ready, Loc.ready]⟩ (by decide) (by decide)).2.2.2 (by decide),
   by decide⟩

/-- C10. In every state reached from the start of the workers (for every
configuration, valid ones included), `simulationOver` is true exactly when a party has been taken
(`numTanks` below its initial value) and the pool is unformable; a worker that
passes the wait with the flag clear finds the pool formable, so `formGroup`
succeeds; and a gate event that ends a worker found the flag already set, that
is, the worker left through line 146 and never through the test of line 149. -/
theorem C10_flag_iff_consumed_and_unformable (g : Globals) (es : List Event) (s : World)
    (hrun : run (mainInit g) es = some s) :
    (s.pool.simulationOver = true ↔
      (s.pool.numTanks < g.numTanks ∧ unformable s.pool = true)) ∧
    (waitPred s.pool = true → s.pool.simulationOver = false →
      formable s.pool = true ∧ (formGroup s.pool).success = true) ∧
    (∀ (i : Nat) (s' : World), step s (Event.enter i) = some s' →
      s'.threads[i]? = some Loc.terminated → s.pool.simulationOver = true) := by
  have hinv : FlagInv g.numTanks s :=
    run_invariant (FlagInv g.numTanks) (fun _ _ hP ht => trans_flagInv ht hP) es _ s
      (flagInv_init g) hrun
  obtain ⟨_, h2, h3⟩ := hinv
  refine ⟨⟨h2, ?_⟩, ?_, ?_⟩
  · rintro ⟨hlt, hu⟩
    by_contra hover
    simp only [Bool.not_eq_true] at hover
    rcases h3 hover with h | h
    · omega
    · rw [h] at hu; simp at hu
  · intro hw hover
    have hu := not_unformable_of_waitPred hw hover
    refine ⟨by simpa [unformable_eq_not_formable] using hu, ?_⟩
    by_cases hq : unformable (consume s.pool) = true
    · rw [formGroup_last hu hq]
    · simp only [Bool.not_eq_true] at hq
      rw [formGroup_more hu hq]
  · intro i s' hstep hterm
    simp only [step, dungeonConsumer] at hstep
    split at hstep
    · rename_i hi
      have hlt : i < s.threads.length := (List.getElem?_eq_some.mp hi).1
      simp only [Option.some.injEq] at hstep
      subst hstep
      rcases enter_cases s i with ⟨_, he⟩ | ⟨hover, _⟩ | ⟨_, _, _, he⟩ | ⟨_, _, _, he⟩
      · rw [he] at hterm
        simp [List.getElem?_set_self hlt] at hterm
      · exact hover
      · rw [he] at hterm
        simp [List.getElem?_set_self hlt] at hterm
      · rw [he] at hterm
        have hlt' : i < (wakeAll s.threads).length := by rw [length_wakeAll]; exact hlt
        simp [List.getElem?_set_self hlt'] at hterm
    · simp at hstep

/-- C10 at n=2, t=3, h=3, d=10 after all three parties were taken. -/
theorem C10_flag_iff_consumed_and_unformable_witness :
    run (mainInit ⟨2, 3, 3, 10, 1, 1⟩)
        [Event.enter 0, Event.enter 1, Event.start 0 1, Event.finish 0, Event.enter 0] =
      some ⟨⟨0, 0, 1, true⟩, 1, 1, [⟨false, 1, 1⟩, DungeonStats.fresh],
        [Loc.formed, Loc.formed]⟩ ∧
    ((⟨0, 0, 1, true⟩ : Pool).simulationOver = true ↔
      ((0 : Int) < 3 ∧ unformable ⟨0, 0, 1, true⟩ = true)) :=
  ⟨by decide,
   (C10_flag_iff_consumed_and_unformable ⟨2, 3, 3, 10, 1, 1⟩
      [Event.enter 0, Event.enter 1, Event.start 0 1, Event.finish 0, Event.enter 0]
      ⟨⟨0, 0, 1, true⟩, 1, 1, [⟨false, 1, 1⟩, DungeonStats.fresh],
        [Loc.formed, Loc.formed]⟩ (by decide)).1⟩

/-- C3, what the code does. When the configured pool cannot form a single party
(for instance d < 3, which `readConfigFile` accepts), the wait predicate is
false at the start and no execution ever changes that: the flag is never set,
every gate event parks its worker, and every worker is for ever at the gate
or parked. The test of line 149 that would declare exhaustion sits behind the
same wait and is never reached. -/
theorem C3_unformable_start_blocks_forever (g : Globals)
    (hu : unformable ⟨g.numTanks, g.numHealers, g.numDPS, false⟩ = true)
    (es : List Event) (s : World) (hrun : run (mainInit g) es = some s) :
    waitPred s.pool = false ∧ s.pool.simulationOver = false ∧
    s.instanceStats = (mainInit g).instanceStats ∧
    (∀ l ∈ s.threads, l = Loc.ready ∨ l = Loc.waiting) ∧
    (∀ (i : Nat) (s' : World), step s (Event.enter i) = some s' →
      s' = { s with threads := s.threads.set i Loc.waiting }) := by
  have hinv : Stuck (mainInit g) s :=
    run_invariant (Stuck (mainInit g))
      (fun _ _ hP ht => trans_stuck (by simpa [mainInit] using hu) rfl ht hP) es _ s
      ⟨rfl, rfl, by
        intro l hl
        simp only [mainInit, List.mem_replicate] at hl
        exact Or.inl hl.2⟩ hrun
  obtain ⟨hp, hst, hth⟩ := hinv
  have hf : formable (mainInit g).pool = false := by
    have h := unformable_eq_not_formable (mainInit g).pool
    have hu' : unformable (mainInit g).pool = true := hu
    rw [hu'] at h
    simpa using h.symm
  have hw : waitPred s.pool = false := by
    rw [hp]
    simp only [waitPred, hf, Bool.false_or]
    rfl
  refine ⟨hw, by rw [hp]; rfl, hst, hth, ?_⟩
  intro i s' hstep
  simp only [step, dungeonConsumer] at hstep
  split at hstep
  · simp only [Option.some.injEq] at hstep
    subst hstep
    simp [enter, hw]
  · simp at hstep

/-- C3 at n=2, t=1, h=1, d=2: both workers park, the `notify_all` of `main`
wakes them, and both park again. -/
theorem C3_unformable_start_blocks_forever_witness :
    readConfigFile (some ["n=2", "t=1", "h=1", "d=2", "t1=1", "t2=1"]) =
      some ⟨2, 1, 1, 2, 1, 1⟩ ∧
    unformable ⟨1, 1, 2, false⟩ = true ∧
    run (mainInit ⟨2, 1, 1, 2, 1, 1⟩)
        [Event.enter 0, Event.enter 1, Event.notifyMain, Event.enter 1, Event.enter 0] =
      some ⟨⟨1, 1, 2, false⟩, 1, 1, [DungeonStats.fresh, DungeonStats.fresh],
        [Loc.waiting, Loc.waiting]⟩ ∧
    waitPred ⟨1, 1, 2, false⟩ = false :=
  ⟨by decide, by decide, by decide,
   (C3_unformable_start_blocks_forever ⟨2, 1, 1, 2, 1, 1⟩ (by decide)
      [Event.enter 0, Event.enter 1, Event.notifyMain, Event.enter 1, Event.enter 0]
      ⟨⟨1, 1, 2, false⟩, 1, 1, [DungeonStats.fresh, DungeonStats.fresh],
        [Loc.waiting, Loc.waiting]⟩ (by decide)).1⟩

/-- C1, within the range of `int`. For every configuration with n >= 1 and
tanks, healers, dps >= 1 whose number of formable parties
min(t, h, floor(d / 3)) is at most INT_MAX, every execution that ends with all
workers out of their loops has served exactly that many parties in total and
leaves (t - s, h - s, d - 3 s) in the pool, s being that total. -/
theorem C1_conservation_within_int (g : Globals) (hn : 1 ≤ g.numDungeons)
    (ht : 1 ≤ g.numTanks) (hh : 1 ≤ g.numHealers) (hd : 1 ≤ g.numDPS)
    (hfit : min g.numTanks (min g.numHealers (g.numDPS / 3)) ≤ INT_MAX)
    (es : List Event) (s : World) (hrun : run (mainInit g) es = some s)
    (hall : allTerminated s) :
    totalCountPartiesServed s = min g.numTanks (min g.numHealers (g.numDPS / 3)) ∧
    s.pool.numTanks = g.numTanks - totalCountPartiesServed s ∧
    s.pool.numHealers = g.numHealers - totalCountPartiesServed s ∧
    s.pool.numDPS = g.numDPS - 3 * totalCountPartiesServed s := by
  have hc : CountInv g s :=
    run_invariant (CountInv g) (fun _ _ hP hT => trans_countInv hfit hT hP) es _ s
      (countInv_init g ht hh hd) hrun
  have hf : FlagInv g.numTanks s :=
    run_invariant (FlagInv g.numTanks) (fun _ _ hP hT => trans_flagInv hT hP) es _ s
      (flagInv_init g) hrun
  obtain ⟨hlen, hH, hD, hnn, _, hsum, hterm⟩ := hc
  have hpos : 0 < s.threads.length := by
    rw [hlen]
    unfold numDungeonsToRun wrapInt INT_MAX
    split <;> omega
  have hmem : Loc.terminated ∈ s.threads := by
    cases hths : s.threads with
    | nil => rw [hths] at hpos; simp at hpos
    | cons l ls =>
      have := hall l (by rw [hths]; exact List.mem_cons_self _ _)
      rw [this]
      exact List.mem_cons_self _ _
  have hu := (hf.2.1 (hterm hmem)).2
  rw [unformable_iff] at hu
  have hz : inFlight s.threads = 0 := by
    unfold inFlight
    apply sum_map_eq_zero
    intro z hz
    rw [hall z hz]
    rfl
  rw [hz] at hsum
  omega

/-- C1 at the scenario of the specification: n=2, t=3, h=3, d=10, t1=t2=1
serves 3 parties and leaves 0 tanks, 0 healers and 1 dps. -/
theorem C1_conservation_within_int_witness :
    run (mainInit ⟨2, 3, 3, 10, 1, 1⟩)
        [Event.enter 0, Event.enter 1, Event.start 0 1, Event.finish 0, Event.enter 0,
         Event.start 1 1, Event.start 0 1, Event.finish 1, Event.finish 0,
         Event.enter 0, Event.enter 1] =
      some ⟨⟨0, 0, 1, true⟩, 1, 1, [⟨false, 2, 2⟩, ⟨false, 1, 1⟩],
        [Loc.terminated, Loc.terminated]⟩ ∧
    totalCountPartiesServed ⟨⟨0, 0, 1, true⟩, 1, 1, [⟨false, 2, 2⟩, ⟨false, 1, 1⟩],
        [Loc.terminated, Loc.terminated]⟩ = 3 ∧
    totalCountPartiesServed ⟨⟨0, 0, 1, true⟩, 1, 1, [⟨false, 2, 2⟩, ⟨false, 1, 1⟩],
        [Loc.terminated, Loc.terminated]⟩ = min 3 (min 3 (10 / 3)) :=
  ⟨by decide, by decide,
   (C1_conservation_within_int ⟨2, 3, 3, 10, 1, 1⟩ (by decide) (by decide) (by decide)
      (by decide) (by decide)
      [Event.enter 0, Event.enter 1, Event.start 0 1, Event.finish 0, Event.enter 0,
       Event.start 1 1, Event.start 0 1, Event.finish 1, Event.finish 0,
       Event.enter 0, Event.enter 1]
      ⟨⟨0, 0, 1, true⟩, 1, 1, [⟨false, 2, 2⟩, ⟨false, 1, 1⟩],
        [Loc.terminated, Loc.terminated]⟩ (by decide) (by decide)).1⟩

/-- C1 as stated fails beyond the range of `int`: with n=1, t=h=2^31 and
d=3*2^31 the single worker serves 2^31 parties, `partiesServed` is a 32-bit
`int`, and the total reported at the end is not min(t, h, floor(d/3)) = 2^31. -/
theorem C1_conservation_counterexample :
    ∃ (es : List Event) (s : World),
      readConfigFile (some ["n=1", "t=2147483648", "h=2147483648", "d=6442450944",
        "t1=1", "t2=1"]) = some ⟨1, 2147483648, 2147483648, 6442450944, 1, 1⟩ ∧
      run (mainInit ⟨1, 2147483648, 2147483648, 6442450944, 1, 1⟩) es = some s ∧
      allTerminated s ∧
      totalCountPartiesServed s ≠ min 2147483648 (min 2147483648 (6442450944 / 3)) := by
  refine ⟨soloRounds 2147483647 ++
      [Event.enter 0, Event.start 0 1, Event.finish 0, Event.enter 0],
    ⟨⟨0, 0, 0, true⟩, 1, 1, [⟨false, -2147483648, 2147483648⟩], [Loc.terminated]⟩,
    by decide, ?_, by decide, by decide⟩
  have h0 : mainInit ⟨1, 2147483648, 2147483648, 6442450944, 1, 1⟩ =
      soloWorld 2147483648 2147483648 6442450944 0 0 := by decide
  have h1 := solo_rounds 2147483647 2147483648 2147483648 6442450944 0 0
    (by norm_num) (by norm_num) (by norm_num) (by norm_num)
    (by unfold INT_MAX; norm_num) (by unfold LLONG_MAX; norm_num)
    (by unfold LLONG_MAX; norm_num)
  have h2 : soloWorld (2147483648 - ((2147483647 : Nat) : Int))
      (2147483648 - ((2147483647 : Nat) : Int))
      (6442450944 - 3 * ((2147483647 : Nat) : Int)) (0 + ((2147483647 : Nat) : Int))
      (0 + ((2147483647 : Nat) : Int)) = soloWorld 1 1 3 2147483647 2147483647 := by
    norm_num
  rw [h0, run_append, h1, h2]
  decide

/-- C8, within the range of the counters. In every reachable state the
`active` entry of a worker is true exactly while the worker is in its run
(after its party was formed, before the completion step); and the completion
step of worker `i` after a run of `dt` seconds leaves the pool and the entries
of all other workers unchanged, sets `active` to false, raises
`partiesServed` by exactly 1 when it was below INT_MAX and raises `totalTime`
by exactly `dt` when the sum fits a `long long`. -/
theorem C8_session_bookkeeping_within_range (g : Globals) (es : List Event) (s : World)
    (hrun : run (mainInit g) es = some s) :
    (∀ (i : Nat) (d : DungeonStats), s.instanceStats[i]? = some d →
      (d.active = true ↔ ∃ dt, s.threads[i]? = some (Loc.running dt))) ∧
    (∀ (i : Nat) (s' : World), dungeonConsumer s i Move.finish = some s' →
      ∃ (dt : Int) (d d' : DungeonStats),
        s.threads[i]? = some (Loc.running dt) ∧ s.instanceStats[i]? = some d ∧
        s'.instanceStats[i]? = some d' ∧
        s'.pool = s.pool ∧
        (∀ j, j ≠ i → s'.instanceStats[j]? = s.instanceStats[j]?) ∧
        s'.instanceStats.length = s.instanceStats.length ∧
        d'.active = false ∧
        (d.partiesServed < INT_MAX → d'.partiesServed = d.partiesServed + 1) ∧
        (-LLONG_MAX - 1 ≤ d.totalTime + dt → d.totalTime + dt ≤ LLONG_MAX →
          d'.totalTime = d.totalTime + dt)) := by
  have hinv : ActiveInv s :=
    run_invariant ActiveInv (fun _ _ hP hT => trans_activeInv hT hP) es _ s
      (activeInv_init g) hrun
  refine ⟨fun i d hd => (hinv i d hd).1, ?_⟩
  intro i s' hstep
  simp only [step, dungeonConsumer] at hstep
  split at hstep
  · rename_i dt d hi hd
    simp only [Option.some.injEq] at hstep
    subst hstep
    have hlt' : i < s.instanceStats.length := (List.getElem?_eq_some.mp hd).1
    refine ⟨dt, d, recordRun d dt, hi, hd, by simp [List.getElem?_set_self hlt'], rfl,
      fun j hj => by simp [List.getElem?_set_ne (Ne.symm hj)], by simp, rfl, ?_, ?_⟩
    · intro hlt
      exact wrapInt_eq (by have := (hinv i d hd).2; omega) (by omega)
    · intro h1 h2
      exact wrapLongLong_eq h1 h2
  · simp at hstep

/-- C8 at n=1, t=1, h=1, d=3: the first completion of worker 0. -/
theorem C8_session_bookkeeping_within_range_witness :
    run (mainInit ⟨1, 1, 1, 3, 1, 5⟩) [Event.enter 0, Event.start 0 4] =
      some ⟨⟨0, 0, 0, true⟩, 1, 5, [⟨true, 0, 0⟩], [Loc.running 4]⟩ ∧
    (∀ (i : Nat) (d : DungeonStats),
      (⟨⟨0, 0, 0, true⟩, 1, 5, [⟨true, 0, 0⟩], [Loc.running 4]⟩ : World).instanceStats[i]?
        = some d →
      (d.active = true ↔ ∃ dt,
        (⟨⟨0, 0, 0, true⟩, 1, 5, [⟨true, 0, 0⟩], [Loc.running 4]⟩ : World).threads[i]?
          = some (Loc.running dt))) ∧
    dungeonConsumer ⟨⟨0, 0, 0, true⟩, 1, 5, [⟨true, 0, 0⟩], [Loc.running 4]⟩ 0 Move.finish =
      some ⟨⟨0, 0, 0, true⟩, 1, 5, [⟨false, 1, 4⟩], [Loc.ready]⟩ :=
  ⟨by decide,
   (C8_session_bookkeeping_within_range ⟨1, 1, 1, 3, 1, 5⟩ [Event.enter 0, Event.start 0 4]
      ⟨⟨0, 0, 0, true⟩, 1, 5, [⟨true, 0, 0⟩], [Loc.running 4]⟩ (by decide)).1,
   by decide⟩

/-- C8 as stated fails at the top of the range of `int`: with n=1, t=h=2^31,
d=3*2^31 the worker reaches its last run with `partiesServed` = INT_MAX, and
the completion step does not leave `partiesServed` one higher. -/
theorem C8_session_bookkeeping_counterexample :
    ∃ (es : List Event) (s s' : World) (d d' : DungeonStats),
      readConfigFile (some ["n=1", "t=2147483648", "h=2147483648", "d=6442450944",
        "t1=1", "t2=1"]) = some ⟨1, 2147483648, 2147483648, 6442450944, 1, 1⟩ ∧
      run (mainInit ⟨1, 2147483648, 2147483648, 6442450944, 1, 1⟩) es = some s ∧
      dungeonConsumer s 0 Move.finish = some s' ∧
      s.instanceStats[0]? = some d ∧ s'.instanceStats[0]? = some d' ∧
      d'.partiesServed ≠ d.partiesServed + 1 := by
  refine ⟨soloRounds 2147483647 ++ [Event.enter 0, Event.start 0 1],
    ⟨⟨0, 0, 0, true⟩, 1, 1, [⟨true, 2147483647, 2147483647⟩], [Loc.running 1]⟩,
    ⟨⟨0, 0, 0, true⟩, 1, 1, [⟨false, -2147483648, 2147483648⟩], [Loc.ready]⟩,
    ⟨true, 2147483647, 2147483647⟩, ⟨false, -2147483648, 2147483648⟩,
    by decide, ?_, by decide, by decide, by decide, by decide⟩
  have h0 : mainInit ⟨1, 2147483648, 2147483648, 6442450944, 1, 1⟩ =
      soloWorld 2147483648 2147483648 6442450944 0 0 := by decide
  have h1 := solo_rounds 2147483647 2147483648 2147483648 6442450944 0 0
    (by norm_num) (by norm_num) (by norm_num) (by norm_num)
    (by unfold INT_MAX; norm_num) (by unfold LLONG_MAX; norm_num)
    (by unfold LLONG_MAX; norm_num)
  have h2 : soloWorld (2147483648 - ((2147483647 : Nat) : Int))
      (2147483648 - ((2147483647 : Nat) : Int))
      (6442450944 - 3 * ((2147483647 : Nat) : Int)) (0 + ((2147483647 : Nat) : Int))
      (0 + ((2147483647 : Nat) : Int)) = soloWorld 1 1 3 2147483647 2147483647 := by
    norm_num
  rw [h0, run_append, h1, h2]
  decide

/-- C5, as the code validates. When `readConfigFile` returns success, every
key among n, t, h, d, t1, t2 that occurs on some line of the file has a loaded
value of at least 1 (so n, t, h, d >= 1 and t1, t2 > 0), and a key that occurs
on no line keeps its initial value 0; when it returns failure, `main` exits
with code 1 and starts no worker. -/
theorem C5_config_keys_present_are_valid (lines : List String) (g : Globals)
    (h : readConfigFile (some lines) = some g) :
    ((mentions ['n'] (lines.map String.toList) → 1 ≤ g.numDungeons) ∧
     (mentions ['t'] (lines.map String.toList) → 1 ≤ g.numTanks) ∧
     (mentions ['h'] (lines.map String.toList) → 1 ≤ g.numHealers) ∧
     (mentions ['d'] (lines.map String.toList) → 1 ≤ g.numDPS) ∧
     (mentions ['t', '1'] (lines.map String.toList) → 0 < g.minDungeonTime) ∧
     (mentions ['t', '2'] (lines.map String.toList) → 0 < g.maxDungeonTime)) ∧
    ((¬ mentions ['n'] (lines.map String.toList) → g.numDungeons = 0) ∧
     (¬ mentions ['t'] (lines.map String.toList) → g.numTanks = 0) ∧
     (¬ mentions ['h'] (lines.map String.toList) → g.numHealers = 0) ∧
     (¬ mentions ['d'] (lines.map String.toList) → g.numDPS = 0) ∧
     (¬ mentions ['t', '1'] (lines.map String.toList) → g.minDungeonTime = 0) ∧
     (¬ mentions ['t', '2'] (lines.map String.toList) → g.maxDungeonTime = 0)) ∧
    mainStart (some lines) = Except.ok (mainInit g) ∧
    (∀ file, readConfigFile file = none → mainStart file = Except.error 1) := by
  have hr : readLines Globals.initial (lines.map String.toList) = some g := by
    cases lines with
    | nil => simp [readConfigFile] at h
    | cons l ls => simpa [readConfigFile] using h
  have key := readLines_value _ _ _ hr
  have kn := key ['n'] (by simp [knownKeys])
  have kt := key ['t'] (by simp [knownKeys])
  have kh := key ['h'] (by simp [knownKeys])
  have kd := key ['d'] (by simp [knownKeys])
  have k1 := key ['t', '1'] (by simp [knownKeys])
  have k2 := key ['t', '2'] (by simp [knownKeys])
  simp only [Globals.valueOf, Globals.initial, if_true] at kn
  simp [Globals.valueOf, Globals.initial] at kt kh kd k1 k2
  refine ⟨⟨kn.1, kt.1, kh.1, kd.1, fun hm => ?_, fun hm => ?_⟩,
    ⟨kn.2, kt.2, kh.2, kd.2, k1.2, k2.2⟩, by simp [mainStart, h], ?_⟩
  · have := k1.1 hm; omega
  · have := k2.1 hm; omega
  · intro file hf
    simp [mainStart, hf]

/-- C5 at the configuration of the specification's scenario. -/
theorem C5_config_keys_present_are_valid_witness :
    readConfigFile (some ["n=2", "t=3", "h=3", "d=10", "t1=1", "t2=1"]) =
      some ⟨2, 3, 3, 10, 1, 1⟩ ∧
    mainStart (some ["n=2", "t=3", "h=3", "d=10", "t1=1", "t2=1"]) =
      Except.ok (mainInit ⟨2, 3, 3, 10, 1, 1⟩) :=
  ⟨by decide,
   (C5_config_keys_present_are_valid ["n=2", "t=3", "h=3", "d=10", "t1=1", "t2=1"]
      ⟨2, 3, 3, 10, 1, 1⟩ (by decide)).2.2.1⟩

/-- C5 as stated fails: a file that sets only `n` is accepted, and the
configuration loaded from it has no tank, healer or dps and zero durations. -/
theorem C5_config_validation_counterexample :
    readConfigFile (some ["n=2"]) = some ⟨2, 0, 0, 0, 0, 0⟩ ∧
    ¬ ValidConfig ⟨2, 0, 0, 0, 0, 0⟩ := by
  decide

/-- The check `t2 >= t1` of line 111 compares against the `t1` loaded so far:
a file with every key set and `t2` before `t1` is accepted with t2 < t1,
while the same lines with `t1` first are rejected. -/
theorem readConfigFile_t2_before_t1 :
    readConfigFile (some ["n=1", "t=1", "h=1", "d=3", "t2=1", "t1=5"]) =
      some ⟨1, 1, 1, 3, 5, 1⟩ ∧
    readConfigFile (some ["n=1", "t=1", "h=1", "d=3", "t1=5", "t2=1"]) = none := by
  decide

end P2
